import Mathlib

/-!
Verification of the Simplex UI controller layer
(`scripts/SimplexUI/simplexInterfaceDialog.py`).

Each namespace `C1` … `C10` contains a shallow embedding of the state and
the event handlers that one claim is about, translated from the Python
source, followed by the theorem settling that claim.  Qt widgets are
modelled by explicit records (selections, checkbox states, signal
counters); handlers become state transformers; progress-dialog
cancellation becomes a boolean schedule indexed by the loop counter.
-/

namespace C1

/-- A Qt item-selection model: its selection, whether its signals are
currently blocked, and a count of selectionChanged signals emitted. -/
structure SelModel where
  blocked : Bool
  selection : List Nat
  emitted : Nat
deriving DecidableEq

/-- QItemSelectionModel.clearSelection: empties the selection; a
selectionChanged signal is emitted only when the selection actually changes
and signals are not blocked. -/
def clearSelection (m : SelModel) : SelModel :=
  { m with
    selection := []
    emitted := if m.blocked || m.selection.isEmpty then m.emitted else m.emitted + 1 }

/-- The signalsBlocked context manager of the source file:
blockSignals(True), run the body, then blockSignals(False). -/
def signalsBlocked (item : SelModel) (body : SelModel → SelModel) : SelModel :=
  let item1 : SelModel := { item with blocked := true }
  let item2 : SelModel := body item1
  { item2 with blocked := false }

/-- The keyboard modifiers tested by the handlers (QApplication.keyboardModifiers
masked with ControlModifier and ShiftModifier). -/
structure Mods where
  ctrl : Bool
  shift : Bool

/-- The dialog state the two unify handlers touch: each tree's selection
model, `none` when the tree has no model (selectionModel() returns null). -/
structure DlgState where
  sliderSelModel : Option SelModel
  comboSelModel : Option SelModel
deriving DecidableEq

/-- unifySliderSelection: clear the selection of the combo tree when an item
on the slider tree is selected, unless Control or Shift is held. -/
def unifySliderSelection (mods : Mods) (st : DlgState) : DlgState :=
  if !(mods.ctrl || mods.shift) then
    match st.comboSelModel with
    | none => st
    | some comboSelModel =>
        { st with comboSelModel := some (signalsBlocked comboSelModel clearSelection) }
  else
    st

/-- unifyComboSelection: clear the selection of the slider tree when an item
on the combo tree is selected, unless Control or Shift is held. -/
def unifyComboSelection (mods : Mods) (st : DlgState) : DlgState :=
  if !(mods.ctrl || mods.shift) then
    match st.sliderSelModel with
    | none => st
    | some sliderSelModel =>
        { st with sliderSelModel := some (signalsBlocked sliderSelModel clearSelection) }
  else
    st

/-- The selection a tree exhibits: empty when it has no selection model. -/
def treeSelection : Option SelModel → List Nat
  | none => []
  | some m => m.selection

/-- Signals emitted so far by a (possibly absent) selection model. -/
def emittedCount : Option SelModel → Nat
  | none => 0
  | some m => m.emitted

/-- C1: with neither Control nor Shift held, unifySliderSelection clears the
combo tree's selection without emitting a selectionChanged signal and leaves
the slider tree's selection model untouched; symmetrically for
unifyComboSelection; with Control or Shift held each handler leaves the
whole state unchanged; and after an unmodified event at most one of the two
trees has a non-empty selection. -/
theorem unify_selection_exclusive (mods : Mods) (st : DlgState) :
    (mods.ctrl = false → mods.shift = false →
      treeSelection (unifySliderSelection mods st).comboSelModel = [] ∧
      emittedCount (unifySliderSelection mods st).comboSelModel
        = emittedCount st.comboSelModel ∧
      (unifySliderSelection mods st).sliderSelModel = st.sliderSelModel ∧
      treeSelection (unifyComboSelection mods st).sliderSelModel = [] ∧
      emittedCount (unifyComboSelection mods st).sliderSelModel
        = emittedCount st.sliderSelModel ∧
      (unifyComboSelection mods st).comboSelModel = st.comboSelModel ∧
      (treeSelection (unifySliderSelection mods st).sliderSelModel = [] ∨
        treeSelection (unifySliderSelection mods st).comboSelModel = []) ∧
      (treeSelection (unifyComboSelection mods st).sliderSelModel = [] ∨
        treeSelection (unifyComboSelection mods st).comboSelModel = [])) ∧
    (mods.ctrl = true ∨ mods.shift = true →
      unifySliderSelection mods st = st ∧ unifyComboSelection mods st = st) := by
  obtain ⟨mc, ms⟩ := mods
  constructor
  · rintro rfl rfl
    obtain ⟨ssel, csel⟩ := st
    refine ⟨?_, ?_, ?_, ?_, ?_, ?_, ?_, ?_⟩ <;>
      cases csel <;> cases ssel <;>
        simp [unifySliderSelection, unifyComboSelection, signalsBlocked,
          clearSelection, treeSelection, emittedCount]
  · rintro (rfl | rfl) <;>
      simp [unifySliderSelection, unifyComboSelection]

/-- Witness for C1 at concrete inputs: an unmodified event clears the combo
selection, and a Control-modified event changes nothing. -/
theorem unify_selection_exclusive_witness :
    treeSelection
      (unifySliderSelection ⟨false, false⟩
        ⟨some ⟨false, [1], 0⟩, some ⟨false, [2, 3], 5⟩⟩).comboSelModel = [] ∧
    unifySliderSelection ⟨true, false⟩
        ⟨some ⟨false, [1], 0⟩, some ⟨false, [2, 3], 5⟩⟩
      = ⟨some ⟨false, [1], 0⟩, some ⟨false, [2, 3], 5⟩⟩ := by
  constructor
  · exact ((unify_selection_exclusive ⟨false, false⟩
      ⟨some ⟨false, [1], 0⟩, some ⟨false, [2, 3], 5⟩⟩).1 rfl rfl).1
  · exact ((unify_selection_exclusive ⟨true, false⟩
      ⟨some ⟨false, [1], 0⟩, some ⟨false, [2, 3], 5⟩⟩).2 (Or.inl rfl)).1

end C1

namespace C2

/-- A QCheckBox: its checked state, its signal-blocking flag, and a count
of stateChanged signals it has emitted. -/
structure CheckBox where
  checkedState : Bool
  blocked : Bool
  emitted : Nat
deriving DecidableEq

def isChecked (c : CheckBox) : Bool := c.checkedState

/-- QCheckBox.setChecked: a stateChanged signal is emitted only when the
state actually changes and signals are not blocked. -/
def setChecked (b : Bool) (c : CheckBox) : CheckBox :=
  { c with
    checkedState := b
    emitted := if c.blocked || (c.checkedState == b) then c.emitted else c.emitted + 1 }

/-- The signalsBlocked context manager applied to a checkbox. -/
def signalsBlocked (item : CheckBox) (body : CheckBox → CheckBox) : CheckBox :=
  let item1 : CheckBox := { item with blocked := true }
  let item2 : CheckBox := body item1
  { item2 with blocked := false }

/-- The combo filter model's three requirement flags plus its
invalidateFilter counter. -/
structure ComboFilterModel where
  filterRequiresAll : Bool
  filterRequiresAny : Bool
  filterRequiresOnly : Bool
  invalidations : Nat
deriving DecidableEq

/-- The dialog state the dependency-checkbox handlers touch. -/
structure DlgState where
  uiComboDependAllCHK : CheckBox
  uiComboDependAnyCHK : CheckBox
  uiComboDependOnlyCHK : CheckBox
  comboModel : Option ComboFilterModel
deriving DecidableEq

/-- Which of the three dependency checkboxes a handler passes as `skip`. -/
inductive Dep | depAll | depAny | depOnly
deriving DecidableEq

/-- One iteration of the loop in _setComboRequirements: skip the clicked
checkbox; any other checkbox that is checked is unchecked with its signals
blocked. -/
def uncheckUnlessSkipped (isSkip : Bool) (item : CheckBox) : CheckBox :=
  if isSkip then item
  else if isChecked item then signalsBlocked item (setChecked false)
  else item

/-- enableComboRequirements: copy the three checkbox states into the combo
filter model's flags and invalidate the filter (no-op without a model). -/
def enableComboRequirements (st : DlgState) : DlgState :=
  match st.comboModel with
  | none => st
  | some comboModel =>
      { st with
        comboModel := some
          { comboModel with
            filterRequiresAll := isChecked st.uiComboDependAllCHK
            filterRequiresAny := isChecked st.uiComboDependAnyCHK
            filterRequiresOnly := isChecked st.uiComboDependOnlyCHK
            invalidations := comboModel.invalidations + 1 } }

/-- _setComboRequirements: uncheck the two non-skipped checkboxes (the loop
runs over (Any, All, Only)), then run enableComboRequirements. -/
def setComboRequirements (skip : Dep) (st : DlgState) : DlgState :=
  let st1 : DlgState :=
    { st with uiComboDependAnyCHK :=
        uncheckUnlessSkipped (skip == Dep.depAny) st.uiComboDependAnyCHK }
  let st2 : DlgState :=
    { st1 with uiComboDependAllCHK :=
        uncheckUnlessSkipped (skip == Dep.depAll) st1.uiComboDependAllCHK }
  let st3 : DlgState :=
    { st2 with uiComboDependOnlyCHK :=
        uncheckUnlessSkipped (skip == Dep.depOnly) st2.uiComboDependOnlyCHK }
  enableComboRequirements st3

def setAllComboRequirement (st : DlgState) : DlgState :=
  setComboRequirements Dep.depAll st

def setAnyComboRequirement (st : DlgState) : DlgState :=
  setComboRequirements Dep.depAny st

def setOnlyComboRequirement (st : DlgState) : DlgState :=
  setComboRequirements Dep.depOnly st

/-- How many of the three dependency checkboxes are checked. -/
def checkedCount (st : DlgState) : Nat :=
  (if isChecked st.uiComboDependAllCHK then 1 else 0) +
  (if isChecked st.uiComboDependAnyCHK then 1 else 0) +
  (if isChecked st.uiComboDependOnlyCHK then 1 else 0)

/-- C2: after any of the three dependency-checkbox handlers, at most one of
the All/Any/Only checkboxes is checked, no checkbox emitted a stateChanged
signal during the unchecking, and when a combo filter model is present its
three flags are set to the resulting checkbox states and its filter is
invalidated exactly once; the three handlers are the instances of
_setComboRequirements at the respective skipped checkbox. -/
theorem combo_requirement_exclusive (skip : Dep) (st : DlgState) :
    checkedCount (setComboRequirements skip st) ≤ 1 ∧
    (setComboRequirements skip st).uiComboDependAllCHK.emitted
      = st.uiComboDependAllCHK.emitted ∧
    (setComboRequirements skip st).uiComboDependAnyCHK.emitted
      = st.uiComboDependAnyCHK.emitted ∧
    (setComboRequirements skip st).uiComboDependOnlyCHK.emitted
      = st.uiComboDependOnlyCHK.emitted ∧
    (∀ m, st.comboModel = some m →
      (setComboRequirements skip st).comboModel = some
        { filterRequiresAll :=
            isChecked (setComboRequirements skip st).uiComboDependAllCHK
          filterRequiresAny :=
            isChecked (setComboRequirements skip st).uiComboDependAnyCHK
          filterRequiresOnly :=
            isChecked (setComboRequirements skip st).uiComboDependOnlyCHK
          invalidations := m.invalidations + 1 }) ∧
    setAllComboRequirement st = setComboRequirements Dep.depAll st ∧
    setAnyComboRequirement st = setComboRequirements Dep.depAny st ∧
    setOnlyComboRequirement st = setComboRequirements Dep.depOnly st := by
  obtain ⟨⟨a1, a2, a3⟩, ⟨b1, b2, b3⟩, ⟨c1, c2, c3⟩, cm⟩ := st
  cases skip <;> cases a1 <;> cases b1 <;> cases c1 <;> cases cm <;>
    simp [setComboRequirements, uncheckUnlessSkipped, enableComboRequirements,
      signalsBlocked, setChecked, isChecked, checkedCount,
      setAllComboRequirement, setAnyComboRequirement, setOnlyComboRequirement]

/-- Witness for C2 at a concrete state with all three checkboxes checked
and a filter model present. -/
theorem combo_requirement_exclusive_witness :
    checkedCount
      (setComboRequirements Dep.depAll
        ⟨⟨true, false, 0⟩, ⟨true, false, 0⟩, ⟨true, false, 0⟩,
          some ⟨false, false, false, 7⟩⟩) ≤ 1 ∧
    (setComboRequirements Dep.depAll
        ⟨⟨true, false, 0⟩, ⟨true, false, 0⟩, ⟨true, false, 0⟩,
          some ⟨false, false, false, 7⟩⟩).comboModel = some
      { filterRequiresAll :=
          isChecked (setComboRequirements Dep.depAll
            ⟨⟨true, false, 0⟩, ⟨true, false, 0⟩, ⟨true, false, 0⟩,
              some ⟨false, false, false, 7⟩⟩).uiComboDependAllCHK
        filterRequiresAny :=
          isChecked (setComboRequirements Dep.depAll
            ⟨⟨true, false, 0⟩, ⟨true, false, 0⟩, ⟨true, false, 0⟩,
              some ⟨false, false, false, 7⟩⟩).uiComboDependAnyCHK
        filterRequiresOnly :=
          isChecked (setComboRequirements Dep.depAll
            ⟨⟨true, false, 0⟩, ⟨true, false, 0⟩, ⟨true, false, 0⟩,
              some ⟨false, false, false, 7⟩⟩).uiComboDependOnlyCHK
        invalidations := 7 + 1 } := by
  refine ⟨(combo_requirement_exclusive Dep.depAll _).1, ?_⟩
  exact (combo_requirement_exclusive Dep.depAll
    ⟨⟨true, false, 0⟩, ⟨true, false, 0⟩, ⟨true, false, 0⟩,
      some ⟨false, false, false, 7⟩⟩).2.2.2.2.1 ⟨false, false, false, 7⟩ rfl

end C2

namespace C3

/-- The combo filter model as populateComboRequirements sees it: its
requires list (Slider items, by id), the three requirement flags, and the
invalidateFilter counter. -/
structure ComboFilterModel where
  requires : List Nat
  filterRequiresAll : Bool
  filterRequiresAny : Bool
  filterRequiresOnly : Bool
  invalidations : Nat
deriving DecidableEq

/-- The dialog state the handler touches: the Slider items currently
selected in the slider tree, the Lock checkbox state, and the combo tree's
filter model. -/
structure DlgState where
  sliderTreeSelectedSliders : List Nat
  uiComboDependLockCHK : Bool
  comboModel : ComboFilterModel
deriving DecidableEq

/-- populateComboRequirements: when Lock is unchecked, set the combo
model's requires list to the Slider items selected in the slider tree;
invalidate the filter only when one of the three requirement flags is on. -/
def populateComboRequirements (st : DlgState) : DlgState :=
  let items := st.sliderTreeSelectedSliders
  let comboModel := st.comboModel
  let locked := st.uiComboDependLockCHK
  let comboModel :=
    if !locked then { comboModel with requires := items } else comboModel
  let comboModel :=
    if comboModel.filterRequiresAll || comboModel.filterRequiresAny
        || comboModel.filterRequiresOnly then
      { comboModel with invalidations := comboModel.invalidations + 1 }
    else comboModel
  { st with comboModel := comboModel }

/-- C3: with Lock checked the requires list is unchanged; with Lock
unchecked it becomes exactly the slider tree's selected Slider items; and
the filter is re-evaluated precisely when one of the three requirement
flags is set. -/
theorem populate_combo_requirements_spec (st : DlgState) :
    (st.uiComboDependLockCHK = true →
      (populateComboRequirements st).comboModel.requires
        = st.comboModel.requires) ∧
    (st.uiComboDependLockCHK = false →
      (populateComboRequirements st).comboModel.requires
        = st.sliderTreeSelectedSliders) ∧
    ((populateComboRequirements st).comboModel.invalidations
        ≠ st.comboModel.invalidations ↔
      (st.comboModel.filterRequiresAll = true ∨
        st.comboModel.filterRequiresAny = true ∨
        st.comboModel.filterRequiresOnly = true)) := by
  obtain ⟨items, locked, ⟨req, f1, f2, f3, inv⟩⟩ := st
  cases locked <;> cases f1 <;> cases f2 <;> cases f3 <;>
    simp [populateComboRequirements]

/-- Witness for C3: a locked state with the Any flag set keeps its requires
list and re-evaluates the filter; an unlocked state with no flags set takes
the selection as requires and does not re-evaluate. -/
theorem populate_combo_requirements_witness :
    (populateComboRequirements
        ⟨[4, 5], true, ⟨[1], false, true, false, 3⟩⟩).comboModel.requires = [1] ∧
    ((populateComboRequirements
        ⟨[4, 5], true, ⟨[1], false, true, false, 3⟩⟩).comboModel.invalidations ≠ 3) ∧
    (populateComboRequirements
        ⟨[4, 5], false, ⟨[1], false, false, false, 3⟩⟩).comboModel.requires = [4, 5] ∧
    ¬((populateComboRequirements
        ⟨[4, 5], false, ⟨[1], false, false, false, 3⟩⟩).comboModel.invalidations ≠ 3) := by
  refine ⟨(populate_combo_requirements_spec _).1 rfl, ?_, ?_, ?_⟩
  · exact (populate_combo_requirements_spec
      ⟨[4, 5], true, ⟨[1], false, true, false, 3⟩⟩).2.2.mpr (Or.inr (Or.inl rfl))
  · exact (populate_combo_requirements_spec _).2.1 rfl
  · intro h
    rcases (populate_combo_requirements_spec
      ⟨[4, 5], false, ⟨[1], false, false, false, 3⟩⟩).2.2.mp h with h1 | h1 | h1 <;>
        cases h1

end C3

namespace C6

/-- A tree's filter model, exposing the isolateList the isolate feature
reads and writes. -/
structure TreeModel where
  isolateList : List Nat
deriving DecidableEq

/-- One linked tree together with its exit-isolate button: the (possibly
absent) model, the current item selection, and the button's visibility. -/
structure TreeState where
  model : Option TreeModel
  selectedItems : List Nat
  exitIsolateBtnVisible : Bool
deriving DecidableEq

/-- Modelled from the spec: `isolateSelected` of interfaceModelTrees is not
part of the provided source; per the spec, isolate mode is a view filter
restricting a tree to a user-selected subset, so it sets the model's
isolateList to the current selection. -/
def isolateSelected (t : TreeState) : TreeState :=
  match t.model with
  | some model =>
      { t with model := some { model with isolateList := t.selectedItems } }
  | none => t

/-- Modelled from the spec: `exitIsolate` of interfaceModelTrees is not
part of the provided source; leaving isolate mode clears the isolateList. -/
def exitIsolate (t : TreeState) : TreeState :=
  match t.model with
  | some model => { t with model := some { model with isolateList := [] } }
  | none => t

/-- The dialog state of the isolate handlers: the two trees. -/
structure DlgState where
  uiSliderTREE : TreeState
  uiComboTREE : TreeState
deriving DecidableEq

/-- isSliderIsolate: True iff the slider tree has a model whose isolateList
is non-empty (bool(model.isolateList)); False when there is no model. -/
def isSliderIsolate (st : DlgState) : Bool :=
  match st.uiSliderTREE.model with
  | some model => !model.isolateList.isEmpty
  | none => false

/-- isComboIsolate: the combo tree analogue of isSliderIsolate. -/
def isComboIsolate (st : DlgState) : Bool :=
  match st.uiComboTREE.model with
  | some model => !model.isolateList.isEmpty
  | none => false

/-- sliderIsolateSelected: isolate the slider tree's current selection and
show the slider exit-isolate button. -/
def sliderIsolateSelected (st : DlgState) : DlgState :=
  let t := isolateSelected st.uiSliderTREE
  { st with uiSliderTREE := { t with exitIsolateBtnVisible := true } }

/-- sliderTreeExitIsolate: exit isolation on the slider tree and hide the
slider exit-isolate button. -/
def sliderTreeExitIsolate (st : DlgState) : DlgState :=
  let t := exitIsolate st.uiSliderTREE
  { st with uiSliderTREE := { t with exitIsolateBtnVisible := false } }

/-- comboIsolateSelected: the combo tree analogue. -/
def comboIsolateSelected (st : DlgState) : DlgState :=
  let t := isolateSelected st.uiComboTREE
  { st with uiComboTREE := { t with exitIsolateBtnVisible := true } }

/-- comboTreeExitIsolate: the combo tree analogue. -/
def comboTreeExitIsolate (st : DlgState) : DlgState :=
  let t := exitIsolate st.uiComboTREE
  { st with uiComboTREE := { t with exitIsolateBtnVisible := false } }

/-- C6: isSliderIsolate (resp. isComboIsolate) is true iff the tree has a
model with a non-empty isolateList, and false when the tree has no model;
the isolate-selected handlers isolate the current selection and show the
matching exit button, the exit handlers clear isolation and hide it, and
each handler leaves the other tree untouched — so the button's visibility
records whether that tree was last put into isolate mode. -/
theorem isolate_mode_spec (st : DlgState) :
    (isSliderIsolate st = true ↔
      ∃ m, st.uiSliderTREE.model = some m ∧ m.isolateList ≠ []) ∧
    (st.uiSliderTREE.model = none → isSliderIsolate st = false) ∧
    (isComboIsolate st = true ↔
      ∃ m, st.uiComboTREE.model = some m ∧ m.isolateList ≠ []) ∧
    (st.uiComboTREE.model = none → isComboIsolate st = false) ∧
    (∀ m, st.uiSliderTREE.model = some m →
      (sliderIsolateSelected st).uiSliderTREE.model
        = some ⟨st.uiSliderTREE.selectedItems⟩) ∧
    (sliderIsolateSelected st).uiSliderTREE.exitIsolateBtnVisible = true ∧
    (sliderIsolateSelected st).uiComboTREE = st.uiComboTREE ∧
    (sliderTreeExitIsolate st).uiSliderTREE.exitIsolateBtnVisible = false ∧
    isSliderIsolate (sliderTreeExitIsolate st) = false ∧
    (sliderTreeExitIsolate st).uiComboTREE = st.uiComboTREE ∧
    (∀ m, st.uiComboTREE.model = some m →
      (comboIsolateSelected st).uiComboTREE.model
        = some ⟨st.uiComboTREE.selectedItems⟩) ∧
    (comboIsolateSelected st).uiComboTREE.exitIsolateBtnVisible = true ∧
    (comboIsolateSelected st).uiSliderTREE = st.uiSliderTREE ∧
    (comboTreeExitIsolate st).uiComboTREE.exitIsolateBtnVisible = false ∧
    isComboIsolate (comboTreeExitIsolate st) = false ∧
    (comboTreeExitIsolate st).uiSliderTREE = st.uiSliderTREE := by
  obtain ⟨⟨sm, ssel, sbtn⟩, ⟨cm, csel, cbtn⟩⟩ := st
  refine ⟨?_, ?_, ?_, ?_, ?_, ?_, ?_, ?_, ?_, ?_, ?_, ?_, ?_, ?_, ?_, ?_⟩ <;>
    cases sm <;> cases cm <;>
      simp [isSliderIsolate, isComboIsolate, sliderIsolateSelected,
        sliderTreeExitIsolate, comboIsolateSelected, comboTreeExitIsolate,
        isolateSelected, exitIsolate, List.isEmpty_iff]

/-- Witness for C6 at a concrete state: isolating a selection turns the
slider query true and shows the button; exiting turns it false. -/
theorem isolate_mode_spec_witness :
    (sliderIsolateSelected
        ⟨⟨some ⟨[]⟩, [2, 3], false⟩, ⟨none, [], false⟩⟩).uiSliderTREE.model
      = some ⟨[2, 3]⟩ ∧
    isSliderIsolate
      (sliderTreeExitIsolate
        ⟨⟨some ⟨[1]⟩, [2, 3], true⟩, ⟨none, [], false⟩⟩) = false ∧
    isComboIsolate ⟨⟨some ⟨[]⟩, [], false⟩, ⟨none, [], false⟩⟩ = false := by
  refine ⟨?_, ?_, ?_⟩
  · exact (isolate_mode_spec
      ⟨⟨some ⟨[]⟩, [2, 3], false⟩, ⟨none, [], false⟩⟩).2.2.2.2.1 ⟨[]⟩ rfl
  · exact (isolate_mode_spec
      ⟨⟨some ⟨[1]⟩, [2, 3], true⟩, ⟨none, [], false⟩⟩).2.2.2.2.2.2.2.2.1
  · exact (isolate_mode_spec
      ⟨⟨some ⟨[]⟩, [], false⟩, ⟨none, [], false⟩⟩).2.2.2.1 rfl

end C6

namespace C7

/-- A slider as newActiveCombo reads it: its name and its current value
(exact scalars; the source tests `s.value != 0.0`). -/
structure Slider where
  name : List Char
  value : Rat
deriving DecidableEq

/-- The record of one Combo.createCombo call. -/
structure Combo where
  comboName : List Char
  sliders : List Slider
  values : List Rat
deriving DecidableEq

/-- Modelled from the spec: Combo.createCombo lives in interfaceItems and
is not part of the provided source; it is modelled as a constructor
recording its arguments (the spec: a combo is a rig control activated by a
weighted combination of slider values). -/
def createCombo (name : List Char) (sliders : List Slider) (values : List Rat) :
    Combo :=
  ⟨name, sliders, values⟩

/-- The dialog state newActiveCombo touches: the loaded system's sliders,
the combo tree's item selection, and the combos created so far. -/
structure DlgState where
  simplex : Option (List Slider)
  comboTreeSelection : List Combo
  createdCombos : List Combo
deriving DecidableEq

/-- The slider/value accumulation loop of newActiveCombo: append each
slider whose value is nonzero, together with that value. -/
def activePairs (ss : List Slider) : List Slider × List Rat :=
  ss.foldl
    (fun acc s =>
      if s.value ≠ 0 then (acc.1 ++ [s], acc.2 ++ [s.value]) else acc)
    ([], [])

/-- newActiveCombo: with no system loaded do nothing; otherwise create a
combo over the sliders with nonzero value (named by Combo.buildComboName,
passed here as the abstract name builder) and select it in the combo tree. -/
def newActiveCombo (buildComboName : List Slider → List Rat → List Char)
    (st : DlgState) : DlgState :=
  match st.simplex with
  | none => st
  | some simplexSliders =>
      let sliders := (activePairs simplexSliders).1
      let values := (activePairs simplexSliders).2
      let name := buildComboName sliders values
      let newCombo := createCombo name sliders values
      { st with
        createdCombos := st.createdCombos ++ [newCombo]
        comboTreeSelection := [newCombo] }

theorem activePairs_eq (ss : List Slider) :
    activePairs ss = (ss.filter (fun s => decide (s.value ≠ 0)),
      (ss.filter (fun s => decide (s.value ≠ 0))).map Slider.value) := by
  have key : ∀ (l : List Slider) (a : List Slider) (b : List Rat),
      l.foldl
        (fun acc s =>
          if s.value ≠ 0 then (acc.1 ++ [s], acc.2 ++ [s.value]) else acc)
        (a, b)
      = (a ++ l.filter (fun s => decide (s.value ≠ 0)),
          b ++ (l.filter (fun s => decide (s.value ≠ 0))).map Slider.value) := by
    intro l
    induction l with
    | nil => simp
    | cons s t ih =>
        intro a b
        by_cases hs : s.value = 0
        · have hstep :
              (if s.value ≠ 0 then (a ++ [s], b ++ [s.value]) else (a, b))
                = (a, b) := by simp [hs]
          rw [List.foldl_cons, hstep, ih, List.filter_cons]
          simp [hs]
        · have hstep :
              (if s.value ≠ 0 then (a ++ [s], b ++ [s.value]) else (a, b))
                = (a ++ [s], b ++ [s.value]) := by simp [hs]
          rw [List.foldl_cons, hstep, ih, List.filter_cons]
          simp [hs]
  unfold activePairs
  rw [key ss [] []]
  simp

/-- C7: with no system loaded newActiveCombo does nothing; with a system
loaded it creates exactly one combo whose sliders are the sliders of
nonzero current value, whose values are those sliders' values, whose name
is Combo.buildComboName applied to them, and it makes that combo the combo
tree's selection. -/
theorem new_active_combo_spec
    (buildComboName : List Slider → List Rat → List Char) (st : DlgState) :
    (st.simplex = none → newActiveCombo buildComboName st = st) ∧
    (∀ ss, st.simplex = some ss →
      newActiveCombo buildComboName st =
        { st with
          createdCombos := st.createdCombos ++
            [createCombo
              (buildComboName (ss.filter (fun s => decide (s.value ≠ 0)))
                ((ss.filter (fun s => decide (s.value ≠ 0))).map Slider.value))
              (ss.filter (fun s => decide (s.value ≠ 0)))
              ((ss.filter (fun s => decide (s.value ≠ 0))).map Slider.value)]
          comboTreeSelection :=
            [createCombo
              (buildComboName (ss.filter (fun s => decide (s.value ≠ 0)))
                ((ss.filter (fun s => decide (s.value ≠ 0))).map Slider.value))
              (ss.filter (fun s => decide (s.value ≠ 0)))
              ((ss.filter (fun s => decide (s.value ≠ 0))).map Slider.value)] }) := by
  constructor
  · intro h
    simp [newActiveCombo, h]
  · intro ss h
    simp [newActiveCombo, h, activePairs_eq]

/-- Witness for C7: two sliders at values 0 and 1/2; only the second enters
the created combo, which becomes the selection. -/
theorem new_active_combo_witness :
    newActiveCombo (fun _ _ => [ 'c' ])
        ⟨some [⟨[ 'a' ], 0⟩, ⟨[ 'b' ], (1 : Rat) / 2⟩], [], []⟩ =
      ⟨some [⟨[ 'a' ], 0⟩, ⟨[ 'b' ], (1 : Rat) / 2⟩],
        [createCombo [ 'c' ] [⟨[ 'b' ], (1 : Rat) / 2⟩] [(1 : Rat) / 2]],
        [createCombo [ 'c' ] [⟨[ 'b' ], (1 : Rat) / 2⟩] [(1 : Rat) / 2]]⟩ := by
  have h := (new_active_combo_spec (fun _ _ => [ 'c' ])
    ⟨some [⟨[ 'a' ], 0⟩, ⟨[ 'b' ], (1 : Rat) / 2⟩], [], []⟩).2
    [⟨[ 'a' ], 0⟩, ⟨[ 'b' ], (1 : Rat) / 2⟩] rfl
  rw [h]
  norm_num [createCombo]

end C7

namespace C8

/-- The character class [A-Za-z] of NAME_CHECK. -/
def isAsciiLetter (c : Char) : Bool :=
  (decide ('A' ≤ c) && decide (c ≤ 'Z')) || (decide ('a' ≤ c) && decide (c ≤ 'z'))

/-- Python 2's \w on a byte string without re.UNICODE: [A-Za-z0-9_]. -/
def isWordChar (c : Char) : Bool :=
  isAsciiLetter c || c.isDigit || c = '_'

/-- Whether a whole string matches the pattern [A-Za-z][\w.]* . -/
def matchesWhole (cs : List Char) : Bool :=
  match cs with
  | [] => false
  | c :: rest => isAsciiLetter c && rest.all (fun d => isWordChar d || d = '.')

/-- re.match semantics for NAME_CHECK: the pattern is matched at the start
of the string against some (not necessarily whole) leading segment. -/
def nameCheckMatch (cs : List Char) : Bool :=
  cs.inits.any matchesWhole

/-- The model-side state the five name-validated handlers touch, with a
counter of warning dialogs shown. -/
structure UIState where
  simplexLoaded : Bool
  hasCurrentObject : Bool
  createdGroups : List (List Char)
  createdSliders : List (List Char)
  createdSystems : List (List Char)
  systemName : List Char
  systemItems : List (List Char)
  selectedShapeNames : List (List Char)
  warnings : Nat
deriving DecidableEq

/-- newSliderGroup / newComboGroup: dialog-validated group creation
(Group.createGroup of interfaceItems is recorded as a created name). -/
def newSliderGroup (st : UIState) (newName : List Char) (good : Bool) : UIState :=
  if !st.simplexLoaded then st
  else if !good then st
  else if !nameCheckMatch newName then { st with warnings := st.warnings + 1 }
  else { st with createdGroups := st.createdGroups ++ [newName] }

/-- newSlider: dialog-validated slider creation (Slider.createSlider of
interfaceItems is recorded as a created name). -/
def newSlider (st : UIState) (newName : List Char) (good : Bool) : UIState :=
  if !st.simplexLoaded then st
  else if !good then st
  else if !nameCheckMatch newName then { st with warnings := st.warnings + 1 }
  else { st with createdSliders := st.createdSliders ++ [newName] }

/-- newSystem: requires a current object, then dialog-validated system
creation (Simplex.buildEmptySystem is recorded as a created name). -/
def newSystem (st : UIState) (newName : List Char) (good : Bool) : UIState :=
  if !st.hasCurrentObject then { st with warnings := st.warnings + 1 }
  else if !good then st
  else if !nameCheckMatch newName then { st with warnings := st.warnings + 1 }
  else { st with createdSystems := st.createdSystems ++ [newName] }

/-- renameSystem: dialog-validated system rename; getNextName of utils is
not part of the provided source and is passed as an abstract parameter. -/
def renameSystem (getNextName : List Char → List (List Char) → List Char)
    (st : UIState) (nn : List Char) (good : Bool) : UIState :=
  if !st.simplexLoaded then st
  else if !good then st
  else if !nameCheckMatch nn then { st with warnings := st.warnings + 1 }
  else { st with systemName := getNextName nn st.systemItems }

/-- setShapeName: requires exactly one selected ProgPair, then validated
rename of that pair's shape. -/
def setShapeName (st : UIState) (newName : List Char) : UIState :=
  if st.selectedShapeNames.length ≠ 1 then { st with warnings := st.warnings + 1 }
  else if !nameCheckMatch newName then { st with warnings := st.warnings + 1 }
  else { st with selectedShapeNames := [newName] }

theorem matchesWhole_singleton (c : Char) :
    matchesWhole [c] = isAsciiLetter c := by
  simp [matchesWhole]

/-- NAME_CHECK.match is truthy exactly on strings whose first character is
an ASCII letter. -/
theorem nameCheckMatch_iff (cs : List Char) :
    nameCheckMatch cs = true ↔
      ∃ c rest, cs = c :: rest ∧ isAsciiLetter c = true := by
  cases cs with
  | nil => simp [nameCheckMatch, matchesWhole]
  | cons c rest =>
      constructor
      · intro h
        refine ⟨c, rest, rfl, ?_⟩
        rcases List.any_eq_true.mp h with ⟨pre, hmem, hmatch⟩
        have hpre : pre <+: c :: rest := (List.mem_inits pre (c :: rest)).mp hmem
        cases pre with
        | nil => simp [matchesWhole] at hmatch
        | cons d pre2 =>
            obtain ⟨t, ht⟩ := hpre
            have hd : d = c := by
              have hh := congrArg (fun l => l.head?) ht
              simpa using hh
            subst hd
            simp [matchesWhole] at hmatch
            exact hmatch.1
      · rintro ⟨c2, rest2, heq, hletter⟩
        injection heq with h1 h2
        subst h1
        refine List.any_eq_true.mpr ⟨[c], ?_, ?_⟩
        · exact (List.mem_inits [c] (c :: rest)).mpr ⟨rest, rfl⟩
        · rw [matchesWhole_singleton]
          exact hletter

/-- C8: NAME_CHECK validation is an unanchored prefix match: a name is
accepted iff its first character is an ASCII letter (later characters are
unconstrained), and each of the five validated handlers, on a rejected
name, shows a warning and leaves every model field unchanged, while on an
accepted name it performs its creation or rename. -/
theorem name_validation_spec (st : UIState) (nm : List Char)
    (getNextName : List Char → List (List Char) → List Char) :
    (nameCheckMatch nm = true ↔
      ∃ c rest, nm = c :: rest ∧ isAsciiLetter c = true) ∧
    (nameCheckMatch nm = false →
      st.simplexLoaded = true → st.hasCurrentObject = true →
      st.selectedShapeNames.length = 1 →
      newSliderGroup st nm true = { st with warnings := st.warnings + 1 } ∧
      newSlider st nm true = { st with warnings := st.warnings + 1 } ∧
      newSystem st nm true = { st with warnings := st.warnings + 1 } ∧
      renameSystem getNextName st nm true
        = { st with warnings := st.warnings + 1 } ∧
      setShapeName st nm = { st with warnings := st.warnings + 1 }) ∧
    (nameCheckMatch nm = true →
      st.simplexLoaded = true → st.hasCurrentObject = true →
      st.selectedShapeNames.length = 1 →
      newSliderGroup st nm true
        = { st with createdGroups := st.createdGroups ++ [nm] } ∧
      newSlider st nm true
        = { st with createdSliders := st.createdSliders ++ [nm] } ∧
      newSystem st nm true
        = { st with createdSystems := st.createdSystems ++ [nm] } ∧
      renameSystem getNextName st nm true
        = { st with systemName := getNextName nm st.systemItems } ∧
      setShapeName st nm = { st with selectedShapeNames := [nm] }) := by
  refine ⟨nameCheckMatch_iff nm, ?_, ?_⟩ <;>
    intro hmatch hs ho hsel <;>
      refine ⟨?_, ?_, ?_, ?_, ?_⟩ <;>
        simp [newSliderGroup, newSlider, newSystem, renameSystem, setShapeName,
          hmatch, hs, ho, hsel]

/-- Witness for C8: the name a-b! (letter head, then characters outside
the regex's classes) is accepted by newSlider thanks to the unanchored
match, while _x is rejected with a warning and no creation. -/
theorem name_validation_witness :
    newSlider ⟨true, true, [], [], [], [], [], [[ 'p' ]], 0⟩ [ 'a', '-', 'b', '!' ] true
      = ⟨true, true, [], [[ 'a', '-', 'b', '!' ]], [], [], [], [[ 'p' ]], 0⟩ ∧
    newSlider ⟨true, true, [], [], [], [], [], [[ 'p' ]], 0⟩ [ '_', 'x' ] true
      = ⟨true, true, [], [], [], [], [], [[ 'p' ]], 1⟩ := by
  constructor
  · exact ((name_validation_spec ⟨true, true, [], [], [], [], [], [[ 'p' ]], 0⟩
      [ 'a', '-', 'b', '!' ] (fun n _ => n)).2.2 (by decide) rfl rfl rfl).2.1
  · exact ((name_validation_spec ⟨true, true, [], [], [], [], [], [[ 'p' ]], 0⟩
      [ '_', 'x' ] (fun n _ => n)).2.1 (by decide) rfl rfl rfl).2.1

end C8

namespace C9

/-- A loaded Simplex system as setSystem sees it: its Python object
identity and the identity of the undo-stack object it carries. -/
structure SimplexSys where
  sysId : Nat
  stack : Nat
deriving DecidableEq

/-- What a tree's model slot can hold across setSystem calls. -/
inductive TreeModel where
  | emptyStandardModel : Nat → TreeModel
  | sliderFilterModel : Nat → TreeModel
  | comboFilterModel : Nat → TreeModel
  | other : Nat → TreeModel
deriving DecidableEq

/-- The dialog state setSystem touches; nextId allocates identities for
freshly constructed Python objects (QStandardItemModel(), Stack()). -/
structure DlgState where
  simplex : Option SimplexSys
  sliderTreeModel : TreeModel
  comboTreeModel : TreeModel
  shapeGroupEnabled : Bool
  comboGroupEnabled : Bool
  connectionGroupEnabled : Bool
  simplexLoadedEmits : Nat
  nextId : Nat
deriving DecidableEq

/-- Python == on (possibly None) system objects: identity comparison. -/
def pyEq : Option SimplexSys → Option SimplexSys → Bool
  | none, none => true
  | some a, some b => a.sysId == b.sysId
  | _, _ => false

/-- setSystem: early-out on the already-loaded system; carry the previous
system's stack over to a different new system (a fresh Stack only when no
system was loaded); on None give both trees fresh empty models and disable
the shape, combo, and connection groups; emit simplexLoaded at the end. -/
def setSystem (st : DlgState) (system : Option SimplexSys) : DlgState :=
  if pyEq system st.simplex then st
  else
    let oldStack :=
      match st.simplex with
      | some prev => prev.stack
      | none => st.nextId
    let st1 : DlgState :=
      match st.simplex with
      | some _ => st
      | none => { st with nextId := st.nextId + 1 }
    match system with
    | none =>
        { st1 with
          sliderTreeModel := TreeModel.emptyStandardModel st1.nextId
          comboTreeModel := TreeModel.emptyStandardModel (st1.nextId + 1)
          nextId := st1.nextId + 2
          simplex := none
          shapeGroupEnabled := false
          comboGroupEnabled := false
          connectionGroupEnabled := false
          simplexLoadedEmits := st1.simplexLoadedEmits + 1 }
    | some sys =>
        let sys2 : SimplexSys := { sys with stack := oldStack }
        { st1 with
          simplex := some sys2
          sliderTreeModel := TreeModel.sliderFilterModel sys2.sysId
          comboTreeModel := TreeModel.comboFilterModel sys2.sysId
          shapeGroupEnabled := true
          comboGroupEnabled := true
          connectionGroupEnabled := true
          simplexLoadedEmits := st1.simplexLoadedEmits + 1 }

/-- C9: setSystem on a system equal to the loaded one is a no-op; a
different non-None system inherits the previous system's stack object (a
fresh Stack is used only when no system was loaded); and setSystem None,
when a system was loaded, gives both trees fresh empty models, disables
the shape, combo, and connection groups, and emits simplexLoaded. -/
theorem set_system_spec (st : DlgState) (system : Option SimplexSys) :
    (pyEq system st.simplex = true → setSystem st system = st) ∧
    (∀ prev sys, st.simplex = some prev → system = some sys →
      sys.sysId ≠ prev.sysId →
      (setSystem st system).simplex = some ⟨sys.sysId, prev.stack⟩) ∧
    (∀ sys, st.simplex = none → system = some sys →
      (setSystem st system).simplex = some ⟨sys.sysId, st.nextId⟩) ∧
    (system = none → st.simplex ≠ none →
      (setSystem st system).sliderTreeModel
          = TreeModel.emptyStandardModel st.nextId ∧
      (setSystem st system).comboTreeModel
          = TreeModel.emptyStandardModel (st.nextId + 1) ∧
      (setSystem st system).shapeGroupEnabled = false ∧
      (setSystem st system).comboGroupEnabled = false ∧
      (setSystem st system).connectionGroupEnabled = false ∧
      (setSystem st system).simplex = none ∧
      (setSystem st system).simplexLoadedEmits
          = st.simplexLoadedEmits + 1) := by
  refine ⟨?_, ?_, ?_, ?_⟩
  · intro h
    simp [setSystem, h]
  · rintro prev sys hprev rfl hne
    have hpy : pyEq (some sys) (some prev) = false := by
      simpa [pyEq] using hne
    simp [setSystem, hprev, hpy]
  · rintro sys hprev rfl
    have hpy : pyEq (some sys) (none : Option SimplexSys) = false := rfl
    simp [setSystem, hprev, hpy]
  · rintro rfl hsome
    obtain ⟨prev, hprev⟩ := Option.ne_none_iff_exists'.mp hsome
    have hpy : pyEq none (some prev) = false := rfl
    refine ⟨?_, ?_, ?_, ?_, ?_, ?_, ?_⟩ <;> simp [setSystem, hprev, hpy]

/-- Witness for C9 at concrete states: reloading the same system changes
nothing; a new system id 2 inherits stack 9 from system id 1; and
unloading emits simplexLoaded while disabling the groups. -/
theorem set_system_witness :
    setSystem
        ⟨some ⟨1, 9⟩, TreeModel.sliderFilterModel 1, TreeModel.comboFilterModel 1,
          true, true, true, 4, 20⟩ (some ⟨1, 9⟩)
      = ⟨some ⟨1, 9⟩, TreeModel.sliderFilterModel 1, TreeModel.comboFilterModel 1,
          true, true, true, 4, 20⟩ ∧
    (setSystem
        ⟨some ⟨1, 9⟩, TreeModel.sliderFilterModel 1, TreeModel.comboFilterModel 1,
          true, true, true, 4, 20⟩ (some ⟨2, 7⟩)).simplex = some ⟨2, 9⟩ ∧
    (setSystem
        ⟨some ⟨1, 9⟩, TreeModel.sliderFilterModel 1, TreeModel.comboFilterModel 1,
          true, true, true, 4, 20⟩ none).simplexLoadedEmits = 5 := by
  refine ⟨?_, ?_, ?_⟩
  · exact (set_system_spec
      ⟨some ⟨1, 9⟩, TreeModel.sliderFilterModel 1, TreeModel.comboFilterModel 1,
        true, true, true, 4, 20⟩ (some ⟨1, 9⟩)).1 rfl
  · exact (set_system_spec
      ⟨some ⟨1, 9⟩, TreeModel.sliderFilterModel 1, TreeModel.comboFilterModel 1,
        true, true, true, 4, 20⟩ (some ⟨2, 7⟩)).2.1 ⟨1, 9⟩ ⟨2, 7⟩ rfl rfl
      (by decide)
  · exact ((set_system_spec
      ⟨some ⟨1, 9⟩, TreeModel.sliderFilterModel 1, TreeModel.comboFilterModel 1,
        true, true, true, 4, 20⟩ none).2.2.2 rfl (by simp)).2.2.2.2.2.2

end C9

namespace C4

/-- Names are character sequences (Python 2 byte strings). -/
abbrev Str := List Char

/-- The suffix "_Extract". -/
def extractSfx : Str := [ '_', 'E', 'x', 't', 'r', 'a', 'c', 't' ]

/-- name.endswith("_Extract") followed by name.rsplit("_Extract", 1)[0]:
since the name ends with the suffix, the rightmost occurrence starts at
length - 8, so the rsplit head is the name with the suffix removed. -/
def stripExtract (name : Str) : Option Str :=
  if extractSfx.isSuffixOf name then
    some (name.take (name.length - extractSfx.length))
  else none

/-- A program of the system: its controller's identity and the shape names
of its progressive pairs, in order. -/
structure Prog where
  controllerId : Nat
  pairShapeNames : List Str
deriving DecidableEq

/-- A progressive pair as it sits in pairDict: the identity of its prog's
controller and its shape's name. -/
structure ProgPair where
  progId : Nat
  shapeName : Str
deriving DecidableEq

/-- One connectShape call: the controller it was invoked on, the shape
passed, and the delete keyword. -/
structure ConnectCall where
  progId : Nat
  shapeName : Str
  delete : Bool
deriving DecidableEq

/-- A Python dict as an association list: assignment replaces the value of
an existing key and appends a new key. -/
def dictInsert (k : Str) (v : ProgPair) (d : List (Str × ProgPair)) :
    List (Str × ProgPair) :=
  if d.any (fun e => e.1 == k) then
    d.map (fun e => if e.1 == k then (k, v) else e)
  else d ++ [(k, v)]

/-- The inner loop building pairDict for one program: pairDict[pp.shape.name] = pp. -/
def insertPairs (cid : Nat) (names : List Str) (d : List (Str × ProgPair)) :
    List (Str × ProgPair) :=
  names.foldl (fun d nm => dictInsert nm ⟨cid, nm⟩ d) d

/-- pairDict: for p in self.simplex.progs: for pp in p.pairs: pairDict[pp.shape.name] = pp. -/
def buildPairDict (progs : List Prog) : List (Str × ProgPair) :=
  progs.foldl (fun d p => insertPairs p.controllerId p.pairShapeNames d) []

/-- The keys of a dict, in order. -/
def keysOf (d : List (Str × ProgPair)) : List Str := d.map Prod.fst

/-- The extraction loop: connectShape(pair.shape, delete=True) per pair,
stopping after the current pair when the progress dialog was canceled. -/
def connectLoop (cancel : Nat → Bool) : List ProgPair → Nat → List ConnectCall
  | [], _ => []
  | pair :: rest, k =>
      ⟨pair.progId, pair.shapeName, true⟩ ::
        (if cancel k then [] else connectLoop cancel rest (k + 1))

/-- The keys of selDict: the selected objects' names that end with
"_Extract", with the suffix stripped. -/
def selKeysOf (sel : List Str) : List Str :=
  sel.filterMap stripExtract

/-- common = selKeys & pairKeys (dict/set iteration order is unspecified in
Python 2; the model fixes pairDict key order, which the claim — a statement
about which pairs are connected — does not depend on). -/
def commonOf (sel : List Str) (progs : List Prog) : List Str :=
  (keysOf (buildPairDict progs)).filter (fun k => decide (k ∈ selKeysOf sel))

/-- pairs = [pairDict[i] for i in common]; every common key is a pairDict
key, so the lookup always succeeds. -/
def pairsOf (sel : List Str) (progs : List Prog) : List ProgPair :=
  (commonOf sel progs).filterMap
    (fun k => ((buildPairDict progs).find? (fun e => e.1 == k)).map Prod.snd)

/-- shapeConnectScene: strip "_Extract" from the selected objects' names,
intersect with the shape names over all programs, and connect each pair in
the intersection with delete=True, honoring cancellation. -/
def shapeConnectScene (sel : List Str) (progs : List Prog)
    (cancel : Nat → Bool) : List ConnectCall :=
  connectLoop cancel (pairsOf sel progs) 0

theorem stripExtract_eq_some (s nm : Str) :
    stripExtract s = some nm ↔ s = nm ++ extractSfx := by
  constructor
  · intro h
    unfold stripExtract at h
    by_cases hsfx : extractSfx.isSuffixOf s
    · rw [if_pos hsfx] at h
      obtain ⟨t, ht⟩ := List.isSuffixOf_iff_suffix.mp hsfx
      have hlen : s.length - extractSfx.length = t.length := by
        rw [← ht]
        simp
      rw [hlen] at h
      have htake : s.take t.length = t := by
        rw [← ht]
        exact List.take_left t extractSfx
      rw [htake] at h
      rw [← ht, Option.some_inj.mp h]
    · rw [if_neg hsfx] at h
      cases h
  · rintro rfl
    have hsfx : extractSfx.isSuffixOf (nm ++ extractSfx) :=
      List.isSuffixOf_iff_suffix.mpr ⟨nm, rfl⟩
    unfold stripExtract
    rw [if_pos hsfx]
    have hlen : (nm ++ extractSfx).length - extractSfx.length = nm.length := by
      simp
    rw [hlen, List.take_left nm extractSfx]

theorem mem_keysOf_dictInsert (a k : Str) (v : ProgPair)
    (d : List (Str × ProgPair)) :
    a ∈ keysOf (dictInsert k v d) ↔ a = k ∨ a ∈ keysOf d := by
  unfold dictInsert keysOf
  by_cases hc : d.any (fun e => e.1 == k)
  · rw [if_pos hc]
    obtain ⟨e, he, hek⟩ := List.any_eq_true.mp hc
    have hkmem : k ∈ d.map Prod.fst :=
      List.mem_map.mpr ⟨e, he, beq_iff_eq.mp hek⟩
    have hkeys : (d.map (fun e => if e.1 == k then (k, v) else e)).map Prod.fst
        = d.map Prod.fst := by
      rw [List.map_map]
      refine List.map_congr_left ?_
      intro x hx
      by_cases hxk : x.1 = k <;> simp [hxk]
    rw [hkeys]
    constructor
    · exact Or.inr
    · rintro (rfl | h)
      · exact hkmem
      · exact h
  · rw [if_neg hc, List.map_append]
    constructor
    · intro h
      rcases List.mem_append.mp h with h | h
      · exact Or.inr h
      · left
        simpa using h
    · rintro (rfl | h)
      · refine List.mem_append.mpr (Or.inr ?_)
        simp
      · exact List.mem_append.mpr (Or.inl h)

theorem mem_dictInsert (e : Str × ProgPair) (k : Str) (v : ProgPair)
    (d : List (Str × ProgPair)) :
    e ∈ dictInsert k v d → e = (k, v) ∨ e ∈ d := by
  unfold dictInsert
  by_cases hc : d.any (fun x => x.1 == k)
  · rw [if_pos hc]
    intro h
    obtain ⟨x, hx, hfx⟩ := List.mem_map.mp h
    by_cases hxk : x.1 = k
    · left
      rw [← hfx]
      simp [hxk]
    · right
      have hfx2 : x = e := by
        rw [← hfx]
        simp [hxk]
      rw [← hfx2]
      exact hx
  · rw [if_neg hc]
    intro h
    rcases List.mem_append.mp h with h | h
    · exact Or.inr h
    · left
      simpa using h

theorem mem_keysOf_insertPairs (a : Str) (cid : Nat) (names : List Str)
    (d : List (Str × ProgPair)) :
    a ∈ keysOf (insertPairs cid names d) ↔ a ∈ names ∨ a ∈ keysOf d := by
  induction names generalizing d with
  | nil => simp [insertPairs]
  | cons nm rest ih =>
      have hstep : insertPairs cid (nm :: rest) d
          = insertPairs cid rest (dictInsert nm ⟨cid, nm⟩ d) := rfl
      rw [hstep, ih, mem_keysOf_dictInsert]
      simp [or_comm, or_assoc]
      tauto

theorem mem_insertPairs (e : Str × ProgPair) (cid : Nat) (names : List Str)
    (d : List (Str × ProgPair)) :
    e ∈ insertPairs cid names d →
      (e.1 ∈ names ∧ e.2 = ⟨cid, e.1⟩) ∨ e ∈ d := by
  induction names generalizing d with
  | nil => exact fun h => Or.inr h
  | cons nm rest ih =>
      intro h
      have hstep : insertPairs cid (nm :: rest) d
          = insertPairs cid rest (dictInsert nm ⟨cid, nm⟩ d) := rfl
      rw [hstep] at h
      rcases ih (dictInsert nm ⟨cid, nm⟩ d) h with h1 | h1
      · exact Or.inl ⟨List.mem_cons_of_mem nm h1.1, h1.2⟩
      · rcases mem_dictInsert e nm ⟨cid, nm⟩ d h1 with h2 | h2
        · left
          rw [h2]
          exact ⟨List.mem_cons_self nm rest, rfl⟩
        · exact Or.inr h2

theorem mem_keysOf_buildPairDict (a : Str) (progs : List Prog) :
    a ∈ keysOf (buildPairDict progs) ↔ ∃ p ∈ progs, a ∈ p.pairShapeNames := by
  have key : ∀ (l : List Prog) (d : List (Str × ProgPair)),
      a ∈ keysOf (l.foldl (fun d p => insertPairs p.controllerId p.pairShapeNames d) d)
        ↔ (∃ p ∈ l, a ∈ p.pairShapeNames) ∨ a ∈ keysOf d := by
    intro l
    induction l with
    | nil => simp
    | cons p rest ih =>
        intro d
        rw [List.foldl_cons, ih, mem_keysOf_insertPairs]
        constructor
        · rintro (h | h | h)
          · obtain ⟨q, hq, ha⟩ := h
            exact Or.inl ⟨q, List.mem_cons_of_mem p hq, ha⟩
          · exact Or.inl ⟨p, List.mem_cons_self p rest, h⟩
          · exact Or.inr h
        · rintro (⟨q, hq, ha⟩ | h)
          · rcases List.mem_cons.mp hq with rfl | hq2
            · exact Or.inr (Or.inl ha)
            · exact Or.inl ⟨q, hq2, ha⟩
          · exact Or.inr (Or.inr h)
  rw [buildPairDict, key progs []]
  simp [keysOf]

theorem mem_buildPairDict (e : Str × ProgPair) (progs : List Prog) :
    e ∈ buildPairDict progs →
      (∃ p ∈ progs, e.1 ∈ p.pairShapeNames ∧ e.2 = ⟨p.controllerId, e.1⟩) := by
  have key : ∀ (l : List Prog) (d : List (Str × ProgPair)),
      e ∈ l.foldl (fun d p => insertPairs p.controllerId p.pairShapeNames d) d →
        (∃ p ∈ l, e.1 ∈ p.pairShapeNames ∧ e.2 = ⟨p.controllerId, e.1⟩) ∨ e ∈ d := by
    intro l
    induction l with
    | nil => exact fun d h => Or.inr h
    | cons p rest ih =>
        intro d h
        rw [List.foldl_cons] at h
        rcases ih _ h with h1 | h1
        · obtain ⟨q, hq, ha, hb⟩ := h1
          exact Or.inl ⟨q, List.mem_cons_of_mem p hq, ha, hb⟩
        · rcases mem_insertPairs e p.controllerId p.pairShapeNames d h1 with h2 | h2
          · exact Or.inl ⟨p, List.mem_cons_self p rest, h2.1, h2.2⟩
          · exact Or.inr h2
  intro h
  rcases key progs [] h with h1 | h1
  · exact h1
  · cases h1

theorem find?_of_mem_keysOf (k : Str) (d : List (Str × ProgPair))
    (h : k ∈ keysOf d) :
    ∃ e, d.find? (fun x => x.1 == k) = some e ∧ e ∈ d ∧ e.1 = k := by
  unfold keysOf at h
  obtain ⟨x, hx, hfx⟩ := List.mem_map.mp h
  have hsome : (d.find? (fun x => x.1 == k)).isSome :=
    List.find?_isSome.mpr ⟨x, hx, beq_iff_eq.mpr hfx⟩
  obtain ⟨e, he⟩ := Option.isSome_iff_exists.mp hsome
  have hpe := List.find?_some he
  have hpe2 : e.1 = k := by simpa using hpe
  exact ⟨e, he, List.mem_of_find?_eq_some he, hpe2⟩

theorem connectLoop_noCancel (pairs : List ProgPair) (k : Nat) :
    connectLoop (fun _ => false) pairs k
      = pairs.map (fun p => ⟨p.progId, p.shapeName, true⟩) := by
  induction pairs generalizing k with
  | nil => rfl
  | cons p rest ih => simp [connectLoop, ih]

theorem connectLoop_canceled (cancel : Nat → Bool) (pairs : List ProgPair)
    (n k : Nat) (hk : cancel (n + k) = true)
    (hlt : ∀ j, j < k → cancel (n + j) = false) :
    connectLoop cancel pairs n
      = (pairs.map (fun p => ⟨p.progId, p.shapeName, true⟩)).take (k + 1) := by
  induction pairs generalizing n k with
  | nil => simp [connectLoop]
  | cons p rest ih =>
      cases k with
      | zero =>
          have hn : cancel n = true := by simpa using hk
          simp [connectLoop, hn]
      | succ k2 =>
          have hn : cancel n = false := by
            have := hlt 0 (Nat.succ_pos k2)
            simpa using this
          have hk2 : cancel ((n + 1) + k2) = true := by
            rw [Nat.add_right_comm]
            exact hk
          have hlt2 : ∀ j, j < k2 → cancel ((n + 1) + j) = false := by
            intro j hj
            rw [Nat.add_right_comm]
            exact hlt (j + 1) (Nat.succ_lt_succ hj)
          simp [connectLoop, hn, ih (n + 1) k2 hk2 hlt2]

theorem connectLoop_delete (cancel : Nat → Bool) (pairs : List ProgPair)
    (n : Nat) :
    ∀ c ∈ connectLoop cancel pairs n,
      c.delete = true ∧ ∃ p ∈ pairs, c = ⟨p.progId, p.shapeName, true⟩ := by
  induction pairs generalizing n with
  | nil => intro c hc; cases hc
  | cons p rest ih =>
      intro c hc
      rw [connectLoop] at hc
      rcases List.mem_cons.mp hc with rfl | hc2
      · exact ⟨rfl, p, List.mem_cons_self p rest, rfl⟩
      · by_cases hn : cancel n
        · rw [if_pos hn] at hc2
          cases hc2
        · rw [if_neg hn] at hc2
          obtain ⟨hdel, q, hq, hcq⟩ := ih (n + 1) c hc2
          exact ⟨hdel, q, List.mem_cons_of_mem p hq, hcq⟩

theorem mem_commonOf (sel : List Str) (progs : List Prog) (nm : Str) :
    nm ∈ commonOf sel progs ↔
      (∃ p ∈ progs, nm ∈ p.pairShapeNames) ∧ (nm ++ extractSfx) ∈ sel := by
  unfold commonOf selKeysOf
  rw [List.mem_filter, mem_keysOf_buildPairDict]
  constructor
  · rintro ⟨h1, h2⟩
    refine ⟨h1, ?_⟩
    have h3 : nm ∈ sel.filterMap stripExtract := by simpa using h2
    obtain ⟨s, hs, hstrip⟩ := List.mem_filterMap.mp h3
    rw [← (stripExtract_eq_some s nm).mp hstrip]
    exact hs
  · rintro ⟨h1, h2⟩
    refine ⟨h1, ?_⟩
    simp only [decide_eq_true_eq]
    exact List.mem_filterMap.mpr
      ⟨nm ++ extractSfx, h2, (stripExtract_eq_some _ _).mpr rfl⟩

theorem mem_pairsOf (sel : List Str) (progs : List Prog) (pair : ProgPair)
    (h : pair ∈ pairsOf sel progs) :
    pair.shapeName ∈ commonOf sel progs ∧
      ∃ p ∈ progs, pair.progId = p.controllerId ∧
        pair.shapeName ∈ p.pairShapeNames := by
  unfold pairsOf at h
  obtain ⟨k, hk, hlook⟩ := List.mem_filterMap.mp h
  obtain ⟨e, hfind, hsnd⟩ := Option.map_eq_some'.mp hlook
  have hek := List.find?_some hfind
  have hek2 : e.1 = k := by simpa using hek
  have hein : e ∈ buildPairDict progs := List.mem_of_find?_eq_some hfind
  obtain ⟨p, hp, hname, hval⟩ := mem_buildPairDict e progs hein
  have hshape : pair.shapeName = k := by
    rw [← hsnd, hval]
    exact hek2
  constructor
  · rw [hshape]
    exact hk
  · refine ⟨p, hp, ?_, ?_⟩
    · rw [← hsnd, hval]
    · rw [← hsnd, hval]
      exact hname

theorem pairsOf_of_mem_commonOf (sel : List Str) (progs : List Prog)
    (nm : Str) (h : nm ∈ commonOf sel progs) :
    ∃ pair ∈ pairsOf sel progs, pair.shapeName = nm := by
  have hkeys : nm ∈ keysOf (buildPairDict progs) := by
    unfold commonOf at h
    exact (List.mem_filter.mp h).1
  obtain ⟨e, hfind, hein, hek⟩ := find?_of_mem_keysOf nm _ hkeys
  obtain ⟨p, hp, hname, hval⟩ := mem_buildPairDict e progs hein
  refine ⟨e.2, ?_, ?_⟩
  · unfold pairsOf
    refine List.mem_filterMap.mpr ⟨nm, h, ?_⟩
    rw [hfind]
    rfl
  · rw [hval]
    exact hek

/-- C4: shapeConnectScene connects exactly the shape names that both occur
among the system's programs' pairs and have a selected object named
name ++ "_Extract"; every call passes delete=True on the controller of a
program containing that shape; and when the progress dialog is first
canceled at step k, only the first k+1 pairs of the full run are
processed. -/
theorem shape_connect_scene_spec (sel : List Str) (progs : List Prog)
    (cancel : Nat → Bool) :
    (∀ nm, (∃ c ∈ shapeConnectScene sel progs (fun _ => false),
        c.shapeName = nm) ↔
      (∃ p ∈ progs, nm ∈ p.pairShapeNames) ∧ (nm ++ extractSfx) ∈ sel) ∧
    (∀ c ∈ shapeConnectScene sel progs cancel, c.delete = true) ∧
    (∀ c ∈ shapeConnectScene sel progs cancel,
      ∃ p ∈ progs, c.progId = p.controllerId ∧ c.shapeName ∈ p.pairShapeNames) ∧
    (∀ k, cancel k = true → (∀ j, j < k → cancel j = false) →
      shapeConnectScene sel progs cancel
        = (shapeConnectScene sel progs (fun _ => false)).take (k + 1)) := by
  refine ⟨?_, ?_, ?_, ?_⟩
  · intro nm
    unfold shapeConnectScene
    rw [connectLoop_noCancel]
    constructor
    · rintro ⟨c, hc, hcn⟩
      obtain ⟨pair, hpair, hcp⟩ := List.mem_map.mp hc
      obtain ⟨hcommon, _⟩ := mem_pairsOf sel progs pair hpair
      have hps : pair.shapeName = nm := by
        rw [← hcn, ← hcp]
      rw [← hps]
      exact (mem_commonOf sel progs pair.shapeName).mp hcommon
    · intro hr
      obtain ⟨pair, hpair, hps⟩ := pairsOf_of_mem_commonOf sel progs nm
        ((mem_commonOf sel progs nm).mpr hr)
      exact ⟨⟨pair.progId, pair.shapeName, true⟩,
        List.mem_map.mpr ⟨pair, hpair, rfl⟩, hps⟩
  · intro c hc
    exact (connectLoop_delete cancel _ 0 c hc).1
  · intro c hc
    obtain ⟨_, pair, hpair, hcp⟩ := connectLoop_delete cancel _ 0 c hc
    obtain ⟨_, p, hp, hpid, hpname⟩ := mem_pairsOf sel progs pair hpair
    refine ⟨p, hp, ?_, ?_⟩
    · rw [hcp]
      exact hpid
    · rw [hcp]
      exact hpname
  · intro k hk hlt
    unfold shapeConnectScene
    rw [connectLoop_noCancel,
      connectLoop_canceled cancel _ 0 k (by simpa using hk)
        (by intro j hj; simpa using hlt j hj)]

/-- Witness for C4: of two selected objects only faceA_Extract matches a
program shape; faceA is connected with delete=True, the unmatched shape
faceB and the non-Extract selected object are not; canceling at step 0
still processes the single pair. -/
theorem shape_connect_scene_witness :
    (∃ c ∈ shapeConnectScene
        [[ 'f', 'a', 'c', 'e', 'A' ] ++ extractSfx, [ 'f', 'a', 'c', 'e', 'B' ]]
        [⟨3, [[ 'f', 'a', 'c', 'e', 'A' ], [ 'f', 'a', 'c', 'e', 'B' ]]⟩]
        (fun _ => false),
      c.shapeName = [ 'f', 'a', 'c', 'e', 'A' ]) ∧
    ¬(∃ c ∈ shapeConnectScene
        [[ 'f', 'a', 'c', 'e', 'A' ] ++ extractSfx, [ 'f', 'a', 'c', 'e', 'B' ]]
        [⟨3, [[ 'f', 'a', 'c', 'e', 'A' ], [ 'f', 'a', 'c', 'e', 'B' ]]⟩]
        (fun _ => false),
      c.shapeName = [ 'f', 'a', 'c', 'e', 'B' ]) ∧
    shapeConnectScene
        [[ 'f', 'a', 'c', 'e', 'A' ] ++ extractSfx, [ 'f', 'a', 'c', 'e', 'B' ]]
        [⟨3, [[ 'f', 'a', 'c', 'e', 'A' ], [ 'f', 'a', 'c', 'e', 'B' ]]⟩]
        (fun _ => true)
      = (shapeConnectScene
          [[ 'f', 'a', 'c', 'e', 'A' ] ++ extractSfx, [ 'f', 'a', 'c', 'e', 'B' ]]
          [⟨3, [[ 'f', 'a', 'c', 'e', 'A' ], [ 'f', 'a', 'c', 'e', 'B' ]]⟩]
          (fun _ => false)).take 1 := by
  refine ⟨?_, ?_, ?_⟩
  · refine ((shape_connect_scene_spec _ _ (fun _ => false)).1 _).mpr ?_
    refine ⟨⟨⟨3, [[ 'f', 'a', 'c', 'e', 'A' ], [ 'f', 'a', 'c', 'e', 'B' ]]⟩,
      ?_, ?_⟩, ?_⟩ <;> decide
  · intro h
    have h2 := ((shape_connect_scene_spec
      [[ 'f', 'a', 'c', 'e', 'A' ] ++ extractSfx, [ 'f', 'a', 'c', 'e', 'B' ]]
      [⟨3, [[ 'f', 'a', 'c', 'e', 'A' ], [ 'f', 'a', 'c', 'e', 'B' ]]⟩]
      (fun _ => false)).1 _).mp h
    revert h2
    decide
  · exact (shape_connect_scene_spec _ _ (fun _ => true)).2.2.2 0 rfl
      (fun j hj => absurd hj (Nat.not_lt_zero j))

end C4

namespace C5

abbrev Str := List Char

/-- A ProgPair as shapeIndexExtract uses it: its prog's controller, its
shape's name, and whether that shape is the rest shape. -/
structure ProgPair where
  progId : Nat
  shapeName : Str
  isRest : Bool
deriving DecidableEq

/-- One extractShape call: the controller it was invoked on, the shape,
the live flag, and the offset. -/
structure ExtractCall where
  progId : Nat
  shapeName : Str
  live : Bool
  offset : Nat
deriving DecidableEq

/-- Modelled from the spec: makeUnique of utils is not part of the
provided source; following the claim's wording (the unique ProgPair
items), it deduplicates while preserving first occurrences. -/
def makeUnique (xs : List ProgPair) : List ProgPair :=
  xs.foldl (fun acc x => if x ∈ acc then acc else acc ++ [x]) []

/-- The extraction loop: extractShape(pair.shape, live, offset) per pair,
offset advancing by 5, the progress value by 1; it stops after the current
pair when the dialog reports canceled.  Returns the calls and the final
progress value. -/
def extractLoop (live : Bool) (cancel : Nat → Bool) :
    List ProgPair → Nat → Nat → Nat → List ExtractCall × Nat
  | [], _, _, pv => ([], pv)
  | pair :: rest, offset, k, pv =>
      if cancel k then ([⟨pair.progId, pair.shapeName, live, offset⟩], pv + 1)
      else
        let tail := extractLoop live cancel rest (offset + 5) (k + 1) (pv + 1)
        (⟨pair.progId, pair.shapeName, live, offset⟩ :: tail.1, tail.2)

/-- The pair pipeline of shapeIndexExtract: unique non-rest pairs sorted by
the natural sort key of the shape name (naturalSortKey of utils is not part
of the provided source and is passed as the abstract key). -/
def sortedPairs (key : Str → Nat) (inputPairs : List ProgPair) :
    List ProgPair :=
  (makeUnique (inputPairs.filter (fun p => !p.isRest))).insertionSort
    (fun a b => key a.shapeName ≤ key b.shapeName)

/-- shapeIndexExtract on the ProgPairs its indexes reduce to: run the
extraction loop over the sorted unique non-rest pairs, offsets from 10. -/
def shapeIndexExtract (key : Str → Nat) (live : Bool) (cancel : Nat → Bool)
    (inputPairs : List ProgPair) (pv0 : Nat) : List ExtractCall × Nat :=
  extractLoop live cancel (sortedPairs key inputPairs) 10 0 pv0

theorem extractLoop_offsets (live : Bool) (cancel : Nat → Bool)
    (l : List ProgPair) (off k pv : Nat) :
    (extractLoop live cancel l off k pv).1.map (fun c => c.offset)
      = List.range' off (extractLoop live cancel l off k pv).1.length 5 := by
  induction l generalizing off k pv with
  | nil => simp [extractLoop]
  | cons pair rest ih =>
      by_cases hk : cancel k
      · simp [extractLoop, hk]
      · simp [extractLoop, hk, ih (off + 5) (k + 1) (pv + 1),
          List.range'_succ]

theorem extractLoop_final_pv (live : Bool) (cancel : Nat → Bool)
    (l : List ProgPair) (off k pv : Nat) :
    (extractLoop live cancel l off k pv).2
      = pv + (extractLoop live cancel l off k pv).1.length := by
  induction l generalizing off k pv with
  | nil => simp [extractLoop]
  | cons pair rest ih =>
      by_cases hk : cancel k
      · simp [extractLoop, hk]
      · simp [extractLoop, hk, ih (off + 5) (k + 1) (pv + 1)]
        omega

theorem extractLoop_calls (live : Bool) (l : List ProgPair)
    (off k pv : Nat) :
    (extractLoop live (fun _ => false) l off k pv).1.map
        (fun c => (c.progId, c.shapeName, c.live))
      = l.map (fun p => (p.progId, p.shapeName, live)) := by
  induction l generalizing off k pv with
  | nil => simp [extractLoop]
  | cons pair rest ih => simp [extractLoop, ih (off + 5) (k + 1) (pv + 1)]

theorem extractLoop_canceled (live : Bool) (cancel : Nat → Bool)
    (l : List ProgPair) (n k off pv : Nat) (hk : cancel (n + k) = true)
    (hlt : ∀ j, j < k → cancel (n + j) = false) :
    (extractLoop live cancel l off n pv).1
      = (extractLoop live (fun _ => false) l off n pv).1.take (k + 1) := by
  induction l generalizing n k off pv with
  | nil => simp [extractLoop]
  | cons pair rest ih =>
      cases k with
      | zero =>
          have hn : cancel n = true := by simpa using hk
          simp [extractLoop, hn]
      | succ k2 =>
          have hn : cancel n = false := by
            have := hlt 0 (Nat.succ_pos k2)
            simpa using this
          have hk2 : cancel ((n + 1) + k2) = true := by
            rw [Nat.add_right_comm]
            exact hk
          have hlt2 : ∀ j, j < k2 → cancel ((n + 1) + j) = false := by
            intro j hj
            rw [Nat.add_right_comm]
            exact hlt (j + 1) (Nat.succ_lt_succ hj)
          simp [extractLoop, hn, ih (n + 1) k2 (off + 5) (pv + 1) hk2 hlt2]

/-- C5: shapeIndexExtract processes the unique non-rest ProgPairs sorted
by the shape-name key: the full run's calls follow that sorted sequence
(which is a permutation of the deduplicated filtered input and is sorted
by the key), the i-th call gets offset 10 + 5*i, the progress value ends
at its start plus the number of processed pairs, and when the dialog is
first canceled at step k only the first k+1 pairs are processed. -/
theorem shape_index_extract_spec (key : Str → Nat) (live : Bool)
    (cancel : Nat → Bool) (inputPairs : List ProgPair) (pv0 : Nat) :
    ((shapeIndexExtract key live (fun _ => false) inputPairs pv0).1.map
        (fun c => (c.progId, c.shapeName, c.live))
      = (sortedPairs key inputPairs).map
          (fun p => (p.progId, p.shapeName, live))) ∧
    (sortedPairs key inputPairs).Perm
      (makeUnique (inputPairs.filter (fun p => !p.isRest))) ∧
    (sortedPairs key inputPairs).Pairwise
      (fun a b => key a.shapeName ≤ key b.shapeName) ∧
    ((shapeIndexExtract key live cancel inputPairs pv0).1.map (fun c => c.offset)
      = List.range' 10
          (shapeIndexExtract key live cancel inputPairs pv0).1.length 5) ∧
    ((shapeIndexExtract key live cancel inputPairs pv0).2
      = pv0 + (shapeIndexExtract key live cancel inputPairs pv0).1.length) ∧
    (∀ k, cancel k = true → (∀ j, j < k → cancel j = false) →
      (shapeIndexExtract key live cancel inputPairs pv0).1
        = (shapeIndexExtract key live (fun _ => false) inputPairs
            pv0).1.take (k + 1)) := by
  refine ⟨?_, ?_, ?_, ?_, ?_, ?_⟩
  · exact extractLoop_calls live (sortedPairs key inputPairs) 10 0 pv0
  · exact List.perm_insertionSort _ _
  · haveI : IsTotal ProgPair (fun a b => key a.shapeName ≤ key b.shapeName) :=
      ⟨fun a b => Nat.le_total (key a.shapeName) (key b.shapeName)⟩
    haveI : IsTrans ProgPair (fun a b => key a.shapeName ≤ key b.shapeName) :=
      ⟨fun a b c hab hbc => Nat.le_trans hab hbc⟩
    exact List.sorted_insertionSort _ _
  · exact extractLoop_offsets live cancel (sortedPairs key inputPairs) 10 0 pv0
  · exact extractLoop_final_pv live cancel (sortedPairs key inputPairs) 10 0 pv0
  · intro k hk hlt
    exact extractLoop_canceled live cancel (sortedPairs key inputPairs) 0 k 10
      pv0 (by simpa using hk) (fun j hj => by simpa using hlt j hj)

/-- Witness for C5: three pairs (one duplicated, one rest) under the
length key; the run extracts the two unique non-rest pairs in sorted
order with offsets 10 and 15, the progress value rises from 3 to 5, and a
cancellation at step 0 processes only the first pair. -/
theorem shape_index_extract_witness :
    (shapeIndexExtract List.length true (fun _ => false)
        [⟨1, [ 'b', 'b' ], false⟩, ⟨2, [ 'a' ], false⟩,
          ⟨1, [ 'b', 'b' ], false⟩, ⟨9, [ 'r' ], true⟩] 3).1.map
        (fun c => c.offset) = [10, 15] ∧
    (shapeIndexExtract List.length true (fun _ => false)
        [⟨1, [ 'b', 'b' ], false⟩, ⟨2, [ 'a' ], false⟩,
          ⟨1, [ 'b', 'b' ], false⟩, ⟨9, [ 'r' ], true⟩] 3).2 = 5 ∧
    (shapeIndexExtract List.length true (fun k => k == 0)
        [⟨1, [ 'b', 'b' ], false⟩, ⟨2, [ 'a' ], false⟩,
          ⟨1, [ 'b', 'b' ], false⟩, ⟨9, [ 'r' ], true⟩] 3).1
      = (shapeIndexExtract List.length true (fun _ => false)
          [⟨1, [ 'b', 'b' ], false⟩, ⟨2, [ 'a' ], false⟩,
            ⟨1, [ 'b', 'b' ], false⟩, ⟨9, [ 'r' ], true⟩] 3).1.take 1 := by
  refine ⟨?_, ?_, ?_⟩
  · have hoff := (shape_index_extract_spec List.length true (fun _ => false)
      [⟨1, [ 'b', 'b' ], false⟩, ⟨2, [ 'a' ], false⟩,
        ⟨1, [ 'b', 'b' ], false⟩, ⟨9, [ 'r' ], true⟩] 3).2.2.2.1
    rw [hoff]
    decide
  · have hpv := (shape_index_extract_spec List.length true (fun _ => false)
      [⟨1, [ 'b', 'b' ], false⟩, ⟨2, [ 'a' ], false⟩,
        ⟨1, [ 'b', 'b' ], false⟩, ⟨9, [ 'r' ], true⟩] 3).2.2.2.2.1
    rw [hpv]
    decide
  · exact (shape_index_extract_spec List.length true (fun k => k == 0)
      [⟨1, [ 'b', 'b' ], false⟩, ⟨2, [ 'a' ], false⟩,
        ⟨1, [ 'b', 'b' ], false⟩, ⟨9, [ 'r' ], true⟩] 3).2.2.2.2.2 0 rfl
      (fun j hj => absurd hj (Nat.not_lt_zero j))

end C5

namespace C10

abbrev Str := List Char

/-- The suffix "_Extract". -/
def extractSfx : Str := [ '_', 'E', 'x', 't', 'r', 'a', 'c', 't' ]

/-- The extension ".obj". -/
def objSfx : Str := [ '.', 'o', 'b', 'j' ]

/-- os.path.splitext(basename(p))[0] for a listdir entry p that ends in
".obj": drop the extension unless everything before the last dot is dots
(CPython keeps a leading-dots-only root whole). -/
def splitextStem (p : Str) : Str :=
  let pre := p.take (p.length - objSfx.length)
  if pre.any (fun c => c ≠ '.') then pre else p

/-- A slider master: the shape names of its prog's pairs. -/
structure Slider where
  progShapes : List Str
deriving DecidableEq

/-- A combo master: the shape names of its prog's pairs and the number of
slider pairs it is activated by (its depth, len(combo.pairs)). -/
structure Combo where
  progShapes : List Str
  pairsLen : Nat
deriving DecidableEq

/-- The system as importObjFolder reads it. -/
structure Simplex where
  shapes : List Str
  sliders : List Slider
  combos : List Combo
deriving DecidableEq

/-- A Python dict as an association list: assignment replaces the value of
an existing key and appends a new key. -/
def dictInsert {κ β : Type} [DecidableEq κ] (k : κ) (v : β)
    (d : List (κ × β)) : List (κ × β) :=
  if d.any (fun e => e.1 == k) then
    d.map (fun e => if e.1 == k then (k, v) else e)
  else d ++ [(k, v)]

/-- Dict read with a default (the source only reads keys it has put in). -/
def dictGet {κ β : Type} [DecidableEq κ] (d : List (κ × β)) (k : κ)
    (dflt : β) : β :=
  ((d.find? (fun e => e.1 == k)).map Prod.snd).getD dflt

def keysOf {κ β : Type} (d : List (κ × β)) : List κ := d.map Prod.fst

theorem dictInsert_mem_keys {κ β : Type} [DecidableEq κ] (a k : κ) (v : β)
    (d : List (κ × β)) :
    a ∈ keysOf (dictInsert k v d) ↔ a = k ∨ a ∈ keysOf d := by
  unfold dictInsert keysOf
  by_cases hc : d.any (fun e => e.1 == k)
  · rw [if_pos hc]
    obtain ⟨e, he, hek⟩ := List.any_eq_true.mp hc
    have hkmem : k ∈ d.map Prod.fst :=
      List.mem_map.mpr ⟨e, he, beq_iff_eq.mp hek⟩
    have hkeys : (d.map (fun e => if e.1 == k then (k, v) else e)).map Prod.fst
        = d.map Prod.fst := by
      rw [List.map_map]
      refine List.map_congr_left ?_
      intro x hx
      by_cases hxk : x.1 = k <;> simp [hxk]
    rw [hkeys]
    constructor
    · exact Or.inr
    · rintro (rfl | h)
      · exact hkmem
      · exact h
  · rw [if_neg hc, List.map_append]
    constructor
    · intro h
      rcases List.mem_append.mp h with h | h
      · exact Or.inr h
      · left
        simpa using h
    · rintro (rfl | h)
      · refine List.mem_append.mpr (Or.inr ?_)
        simp
      · exact List.mem_append.mpr (Or.inl h)

theorem dictInsert_mem {κ β : Type} [DecidableEq κ] (e : κ × β) (k : κ)
    (v : β) (d : List (κ × β)) :
    e ∈ dictInsert k v d → e = (k, v) ∨ e ∈ d := by
  unfold dictInsert
  by_cases hc : d.any (fun x => x.1 == k)
  · rw [if_pos hc]
    intro h
    obtain ⟨x, hx, hfx⟩ := List.mem_map.mp h
    by_cases hxk : x.1 = k
    · left
      rw [← hfx]
      simp [hxk]
    · right
      have hfx2 : x = e := by
        rw [← hfx]
        simp [hxk]
      rw [← hfx2]
      exact hx
  · rw [if_neg hc]
    intro h
    rcases List.mem_append.mp h with h | h
    · exact Or.inr h
    · left
      simpa using h

theorem dict_find?_of_mem_keys {κ β : Type} [DecidableEq κ] (k : κ)
    (d : List (κ × β)) (h : k ∈ keysOf d) :
    ∃ e, d.find? (fun x => x.1 == k) = some e ∧ e ∈ d ∧ e.1 = k := by
  unfold keysOf at h
  obtain ⟨x, hx, hfx⟩ := List.mem_map.mp h
  have hsome : (d.find? (fun x => x.1 == k)).isSome :=
    List.find?_isSome.mpr ⟨x, hx, beq_iff_eq.mpr hfx⟩
  obtain ⟨e, he⟩ := Option.isSome_iff_exists.mp hsome
  have hpe := List.find?_some he
  have hpe2 : e.1 = k := by simpa using hpe
  exact ⟨e, he, List.mem_of_find?_eq_some he, hpe2⟩

theorem dictGet_of_mem_keysOf {κ β : Type} [DecidableEq κ] (k : κ)
    (d : List (κ × β)) (dflt : β) (h : k ∈ keysOf d) :
    ∃ e ∈ d, e.1 = k ∧ dictGet d k dflt = e.2 := by
  obtain ⟨e, hfind, hmem, hek⟩ := dict_find?_of_mem_keys k d h
  refine ⟨e, hmem, hek, ?_⟩
  unfold dictGet
  rw [hfind]
  rfl

/-- One file of the inPairs loop: keep it if its stem is a known shape
name, exactly or after stripping the "_Extract" suffix. -/
def inPairsStep (shapes : List Str) (d : List (Str × Str)) (path : Str) :
    List (Str × Str) :=
  let shapeName := splitextStem path
  if shapeName ∈ shapes then dictInsert shapeName path d
  else if extractSfx.isSuffixOf shapeName then
    let shapeName2 := shapeName.take (shapeName.length - extractSfx.length)
    if shapeName2 ∈ shapes then dictInsert shapeName2 path d else d
  else d

/-- inPairs: map each .obj file whose stem is a known shape name, exactly
or after stripping the "_Extract" suffix, to its path. -/
def inPairsOf (shapes : List Str) (paths : List Str) : List (Str × Str) :=
  paths.foldl (inPairsStep shapes) []

/-- One prog-pair shape of the master loops: record the master under the
shape name when the shape is known and has an incoming file. -/
def masterStep {β : Type} [DecidableEq β] (shapes : List Str)
    (inPairs : List (Str × Str)) (master : β) (d : List (Str × β))
    (nm : Str) : List (Str × β) :=
  if nm ∈ shapes then
    if nm ∈ keysOf inPairs then dictInsert nm master d else d
  else d

/-- sliderMasters: shape name → slider, for prog-pair shapes that are known
shapes with an incoming file. -/
def sliderMastersOf (smp : Simplex) (inPairs : List (Str × Str)) :
    List (Str × Slider) :=
  smp.sliders.foldl
    (fun d master =>
      master.progShapes.foldl (masterStep smp.shapes inPairs master) d)
    []

/-- comboMasters: the combo analogue of sliderMasters. -/
def comboMastersOf (smp : Simplex) (inPairs : List (Str × Str)) :
    List (Str × Combo) :=
  smp.combos.foldl
    (fun d master =>
      master.progShapes.foldl (masterStep smp.shapes inPairs master) d)
    []

/-- comboDepth.setdefault(depth, dict())[k] = v. -/
def depthInsert (depth : Nat) (k : Str) (v : Combo)
    (d : List (Nat × List (Str × Combo))) : List (Nat × List (Str × Combo)) :=
  if d.any (fun e => e.1 == depth) then
    d.map (fun e => if e.1 == depth then (depth, dictInsert k v e.2) else e)
  else d ++ [(depth, dictInsert k v [])]

/-- comboDepth: group comboMasters by combo depth (len(v.pairs)). -/
def comboDepthOf (cm : List (Str × Combo)) :
    List (Nat × List (Str × Combo)) :=
  cm.foldl (fun d kv => depthInsert kv.2.pairsLen kv.1 kv.2 d) []

/-- The externally visible actions of importObjFolder: DCC.importObj and
the two kinds of shape connection (live=False, delete=True on both). -/
inductive Action where
  | importObj : Str → Action
  | connectShape : Str → Action
  | connectComboShape : Str → Nat → Action
deriving DecidableEq

/-- One slider-loop iteration's effects: import the shape's file, then
connect the mesh to the slider-driven shape. -/
def sliderBody (inPairs : List (Str × Str)) (item : Str × Slider) :
    List Action :=
  [Action.importObj (dictGet inPairs item.1 []), Action.connectShape item.1]

/-- One combo-loop iteration's effects: import the shape's file, then
connect the mesh to the combo-driven shape (tagged with the combo depth). -/
def comboBody (inPairs : List (Str × Str)) (item : Str × Combo) :
    List Action :=
  [Action.importObj (dictGet inPairs item.1 []),
    Action.connectComboShape item.1 item.2.pairsLen]

/-- A progress-tracked batch loop: each iteration advances the progress
dialog, then returns immediately if it was canceled, else performs the
iteration body.  Returns the trace, the next step index, and whether the
run was canceled. -/
def batchLoop {β : Type} (cancel : Nat → Bool) (body : Str × β → List Action) :
    List (Str × β) → Nat → List Action × Nat × Bool
  | [], k => ([], k, false)
  | item :: rest, k =>
      if cancel k then ([], k + 1, true)
      else
        let tail := batchLoop cancel body rest (k + 1)
        (body item ++ tail.1, tail.2.1, tail.2.2)

/-- The outer combo loop: for depth in sorted(comboDepth.keys()), run the
batch loop over that depth's group; a cancellation returns out of both
loops. -/
def runDepths (inPairs : List (Str × Str)) (cancel : Nat → Bool) :
    List (Nat × List (Str × Combo)) → Nat → List Action
  | [], _ => []
  | grp :: rest, k =>
      let r := batchLoop cancel (comboBody inPairs) grp.2 k
      if r.2.2 then r.1 else r.1 ++ runDepths inPairs cancel rest r.2.1

/-- The .obj entries of the folder listing. -/
def objPaths (paths0 : List Str) : List Str :=
  paths0.filter (fun p => objSfx.isSuffixOf p)

/-- inPairs of importObjFolder. -/
def theInPairs (smp : Simplex) (paths0 : List Str) : List (Str × Str) :=
  inPairsOf smp.shapes (objPaths paths0)

/-- sliderMasters of importObjFolder. -/
def theSliderMasters (smp : Simplex) (paths0 : List Str) :
    List (Str × Slider) :=
  sliderMastersOf smp (theInPairs smp paths0)

/-- comboMasters of importObjFolder. -/
def theComboMasters (smp : Simplex) (paths0 : List Str) :
    List (Str × Combo) :=
  comboMastersOf smp (theInPairs smp paths0)

/-- comboDepth of importObjFolder. -/
def theComboDepth (smp : Simplex) (paths0 : List Str) :
    List (Nat × List (Str × Combo)) :=
  comboDepthOf (theComboMasters smp paths0)

/-- The depth groups in sorted(comboDepth.keys()) order, each with its
group dict. -/
def theSortedGroups (smp : Simplex) (paths0 : List Str) :
    List (Nat × List (Str × Combo)) :=
  ((keysOf (theComboDepth smp paths0)).insertionSort (· ≤ ·)).map
    (fun depth => (depth, dictGet (theComboDepth smp paths0) depth []))

/-- importObjFolder on the .obj entries of the folder: build inPairs and
the master maps, then connect all slider-driven shapes and then the
combo-driven shapes by increasing depth (the folder-missing and
no-obj-files warning exits touch nothing and are omitted). -/
def importObjFolder (smp : Simplex) (paths0 : List Str)
    (cancel : Nat → Bool) : List Action :=
  let r := batchLoop cancel (sliderBody (theInPairs smp paths0))
    (theSliderMasters smp paths0) 0
  if r.2.2 then r.1
  else r.1 ++ runDepths (theInPairs smp paths0) cancel
    (theSortedGroups smp paths0) r.2.1

theorem mem_batchLoop {β : Type} (cancel : Nat → Bool)
    (body : Str × β → List Action) (l : List (Str × β)) (n : Nat) :
    ∀ a ∈ (batchLoop cancel body l n).1, ∃ item ∈ l, a ∈ body item := by
  induction l generalizing n with
  | nil =>
      intro a ha
      simp [batchLoop] at ha
  | cons item rest ih =>
      intro a ha
      by_cases hk : cancel n
      · simp [batchLoop, hk] at ha
      · simp only [batchLoop, if_neg hk] at ha
        rcases List.mem_append.mp ha with ha | ha
        · exact ⟨item, List.mem_cons_self item rest, ha⟩
        · obtain ⟨it2, hit2, ha2⟩ := ih (n + 1) a ha
          exact ⟨it2, List.mem_cons_of_mem item hit2, ha2⟩

theorem batchLoop_noCancel {β : Type} (body : Str × β → List Action)
    (l : List (Str × β)) (n : Nat) :
    batchLoop (fun _ => false) body l n
      = ((l.map body).flatten, n + l.length, false) := by
  induction l generalizing n with
  | nil => simp [batchLoop]
  | cons item rest ih =>
      simp [batchLoop, ih (n + 1)]
      omega

theorem flatten_map_length {β : Type} (body : Str × β → List Action)
    (hbody : ∀ item, (body item).length = 2) (l : List (Str × β)) :
    ((l.map body).flatten).length = 2 * l.length := by
  induction l with
  | nil => simp
  | cons item rest ih =>
      simp [hbody, ih]
      omega

theorem batchLoop_cons_canceled {β : Type} (cancel : Nat → Bool)
    (body : Str × β → List Action) (item : Str × β) (rest : List (Str × β))
    (n : Nat) (h : cancel n = true) :
    batchLoop cancel body (item :: rest) n = ([], n + 1, true) := by
  simp [batchLoop, h]

theorem batchLoop_cons_going {β : Type} (cancel : Nat → Bool)
    (body : Str × β → List Action) (item : Str × β) (rest : List (Str × β))
    (n : Nat) (h : cancel n = false) :
    batchLoop cancel body (item :: rest) n
      = (body item ++ (batchLoop cancel body rest (n + 1)).1,
          (batchLoop cancel body rest (n + 1)).2.1,
          (batchLoop cancel body rest (n + 1)).2.2) := by
  simp [batchLoop, h]

theorem batchLoop_cancel {β : Type} (cancel : Nat → Bool)
    (body : Str × β → List Action) (hbody : ∀ item, (body item).length = 2)
    (l : List (Str × β)) (k : Nat) (hk : cancel k = true) :
    ∀ n, (∀ j, n ≤ j → j < k → cancel j = false) → n ≤ k →
      ((batchLoop cancel body l n).1
          = ((batchLoop (fun _ => false) body l n).1).take (2 * (k - n))) ∧
      ((batchLoop cancel body l n).2.2 = true ↔ k - n < l.length) ∧
      ((batchLoop cancel body l n).2.2 = false →
        (batchLoop cancel body l n).2.1 = n + l.length) := by
  induction l with
  | nil =>
      intro n hlt hnk
      refine ⟨by simp [batchLoop], by simp [batchLoop], by simp [batchLoop]⟩
  | cons item rest ih =>
      intro n hlt hnk
      by_cases hkn : n = k
      · have hcn : cancel n = true := by
          rw [hkn]
          exact hk
        have hzero : k - n = 0 := by omega
        rw [batchLoop_cons_canceled cancel body item rest n hcn]
        refine ⟨by simp [hzero], by simp [hzero], by simp⟩
      · have hnk2 : n < k := Nat.lt_of_le_of_ne hnk hkn
        have hcn : cancel n = false := hlt n (Nat.le_refl n) hnk2
        obtain ⟨ihT, ihF, ihK⟩ := ih (n + 1)
          (fun j hj1 hj2 => hlt j (Nat.le_of_succ_le hj1) hj2) hnk2
        rw [batchLoop_cons_going cancel body item rest n hcn,
          batchLoop_noCancel body (item :: rest) n]
        refine ⟨?_, ?_, ?_⟩
        · have h1 : (body item).take (2 * (k - n)) = body item :=
            List.take_of_length_le (by rw [hbody]; omega)
          have h2 : 2 * (k - n) - (body item).length = 2 * (k - (n + 1)) := by
            rw [hbody]
            omega
          simp only [ihT, batchLoop_noCancel, List.map_cons, List.flatten_cons,
            List.take_append_eq_append_take, h1, h2]
        · simp only [ihF, List.length_cons]
          omega
        · intro h
          simp only at h
          rw [ihK h]
          simp
          omega

theorem mem_runDepths (inP : List (Str × Str)) (cancel : Nat → Bool)
    (groups : List (Nat × List (Str × Combo))) :
    ∀ n, ∀ a ∈ runDepths inP cancel groups n,
      ∃ g ∈ groups, ∃ item ∈ g.2, a ∈ comboBody inP item := by
  induction groups with
  | nil =>
      intro n a ha
      simp [runDepths] at ha
  | cons grp rest ih =>
      intro n a ha
      simp only [runDepths] at ha
      by_cases hflag : (batchLoop cancel (comboBody inP) grp.2 n).2.2
      · rw [if_pos hflag] at ha
        obtain ⟨item, hit, hb⟩ := mem_batchLoop cancel (comboBody inP) grp.2 n a ha
        exact ⟨grp, List.mem_cons_self grp rest, item, hit, hb⟩
      · rw [if_neg hflag] at ha
        rcases List.mem_append.mp ha with ha | ha
        · obtain ⟨item, hit, hb⟩ :=
            mem_batchLoop cancel (comboBody inP) grp.2 n a ha
          exact ⟨grp, List.mem_cons_self grp rest, item, hit, hb⟩
        · obtain ⟨g, hg, item, hit, hb⟩ := ih _ a ha
          exact ⟨g, List.mem_cons_of_mem grp hg, item, hit, hb⟩

theorem runDepths_noCancel_cons (inP : List (Str × Str))
    (grp : Nat × List (Str × Combo)) (rest : List (Nat × List (Str × Combo)))
    (n : Nat) :
    runDepths inP (fun _ => false) (grp :: rest) n
      = ((grp.2.map (comboBody inP)).flatten)
          ++ runDepths inP (fun _ => false) rest (n + grp.2.length) := by
  simp [runDepths, batchLoop_noCancel]

theorem runDepths_cancel (inP : List (Str × Str)) (cancel : Nat → Bool)
    (groups : List (Nat × List (Str × Combo))) (k : Nat)
    (hk : cancel k = true) :
    ∀ n, (∀ j, n ≤ j → j < k → cancel j = false) → n ≤ k →
      runDepths inP cancel groups n
        = (runDepths inP (fun _ => false) groups n).take (2 * (k - n)) := by
  induction groups with
  | nil =>
      intro n hlt hnk
      simp [runDepths]
  | cons grp rest ih =>
      intro n hlt hnk
      obtain ⟨hT, hF, hK⟩ := batchLoop_cancel cancel (comboBody inP)
        (fun item => rfl) grp.2 k hk n hlt hnk
      have hlenfull :
          ((batchLoop (fun _ => false) (comboBody inP) grp.2 n).1).length
            = 2 * grp.2.length := by
        rw [batchLoop_noCancel]
        exact flatten_map_length (comboBody inP) (fun item => rfl) grp.2
      rw [runDepths_noCancel_cons]
      simp only [runDepths]
      by_cases hflag : (batchLoop cancel (comboBody inP) grp.2 n).2.2
      · rw [if_pos hflag, hT, List.take_append_eq_append_take]
        have hlen : k - n < grp.2.length := hF.mp hflag
        have h0 : 2 * (k - n) - ((grp.2.map (comboBody inP)).flatten).length
            = 0 := by
          rw [flatten_map_length (comboBody inP) (fun item => rfl) grp.2]
          omega
        rw [h0, batchLoop_noCancel]
        simp
      · rw [if_neg hflag]
        have hflag2 : (batchLoop cancel (comboBody inP) grp.2 n).2.2 = false := by
          revert hflag
          cases (batchLoop cancel (comboBody inP) grp.2 n).2.2 <;> simp
        have hlen : grp.2.length ≤ k - n := by
          by_contra hcon
          exact hflag (hF.mpr (Nat.lt_of_not_le hcon))
        have hnext := hK hflag2
        rw [hT, hnext]
        have htake : ((batchLoop (fun _ => false) (comboBody inP) grp.2 n).1).take
            (2 * (k - n)) = (batchLoop (fun _ => false) (comboBody inP) grp.2 n).1 :=
          List.take_of_length_le (by rw [hlenfull]; omega)
        rw [htake, ih (n + grp.2.length)
          (fun j hj1 hj2 => hlt j (by omega) hj2) (by omega)]
        rw [List.take_append_eq_append_take]
        have h1 : ((grp.2.map (comboBody inP)).flatten).take (2 * (k - n))
            = (grp.2.map (comboBody inP)).flatten :=
          List.take_of_length_le
            (by rw [flatten_map_length (comboBody inP) (fun item => rfl) grp.2]; omega)
        have h2 : 2 * (k - n) - ((grp.2.map (comboBody inP)).flatten).length
            = 2 * (k - (n + grp.2.length)) := by
          rw [flatten_map_length (comboBody inP) (fun item => rfl) grp.2]
          omega
        rw [h1, h2, batchLoop_noCancel]

theorem take_of_isSuffixOf_append (s sfx : Str) (h : sfx.isSuffixOf s) :
    s.take (s.length - sfx.length) ++ sfx = s := by
  obtain ⟨t, ht⟩ := List.isSuffixOf_iff_suffix.mp h
  have hlen : s.length - sfx.length = t.length := by
    rw [← ht]
    simp
  rw [hlen, ← ht, List.take_left t sfx]

theorem mem_inPairsStep (shapes : List Str) (d : List (Str × Str))
    (path : Str) (e : Str × Str) (h : e ∈ inPairsStep shapes d path) :
    e ∈ d ∨ (e.2 = path ∧ e.1 ∈ shapes ∧
      (splitextStem path = e.1 ∨ splitextStem path = e.1 ++ extractSfx)) := by
  simp only [inPairsStep] at h
  by_cases h1 : splitextStem path ∈ shapes
  · rw [if_pos h1] at h
    rcases dictInsert_mem e (splitextStem path) path d h with h2 | h2
    · right
      rw [h2]
      exact ⟨rfl, h1, Or.inl rfl⟩
    · exact Or.inl h2
  · rw [if_neg h1] at h
    by_cases h2 : extractSfx.isSuffixOf (splitextStem path)
    · rw [if_pos h2] at h
      by_cases h3 : (splitextStem path).take
          ((splitextStem path).length - extractSfx.length) ∈ shapes
      · rw [if_pos h3] at h
        rcases dictInsert_mem e _ path d h with h4 | h4
        · right
          rw [h4]
          exact ⟨rfl, h3,
            Or.inr (take_of_isSuffixOf_append (splitextStem path)
              extractSfx h2).symm⟩
        · exact Or.inl h4
      · rw [if_neg h3] at h
        exact Or.inl h
    · rw [if_neg h2] at h
      exact Or.inl h

theorem mem_inPairsOf (shapes paths : List Str) :
    ∀ e ∈ inPairsOf shapes paths,
      e.2 ∈ paths ∧ e.1 ∈ shapes ∧
        (splitextStem e.2 = e.1 ∨ splitextStem e.2 = e.1 ++ extractSfx) := by
  have key : ∀ (l : List Str) (d : List (Str × Str)),
      ∀ e ∈ l.foldl (inPairsStep shapes) d,
        e ∈ d ∨ (e.2 ∈ l ∧ e.1 ∈ shapes ∧
          (splitextStem e.2 = e.1 ∨ splitextStem e.2 = e.1 ++ extractSfx)) := by
    intro l
    induction l with
    | nil => exact fun d e he => Or.inl he
    | cons path rest ih =>
        intro d e he
        rw [List.foldl_cons] at he
        rcases ih (inPairsStep shapes d path) e he with h | h
        · rcases mem_inPairsStep shapes d path e h with h2 | h2
          · exact Or.inl h2
          · right
            refine ⟨?_, h2.2.1, ?_⟩
            · rw [h2.1]
              exact List.mem_cons_self path rest
            · rw [h2.1]
              exact h2.2.2
        · exact Or.inr ⟨List.mem_cons_of_mem path h.1, h.2⟩
  intro e he
  rcases key paths [] e he with h | h
  · cases h
  · exact h

theorem mem_masterInner {β : Type} [DecidableEq β] (shapes : List Str)
    (inP : List (Str × Str)) (master : β) :
    ∀ (names : List Str) (d : List (Str × β)) (e : Str × β),
      e ∈ names.foldl (masterStep shapes inP master) d →
        e ∈ d ∨ (e.2 = master ∧ e.1 ∈ names ∧ e.1 ∈ shapes ∧
          e.1 ∈ keysOf inP) := by
  intro names
  induction names with
  | nil => exact fun d e he => Or.inl he
  | cons nm rest ih =>
      intro d e he
      rw [List.foldl_cons] at he
      rcases ih (masterStep shapes inP master d nm) e he with h | h
      · simp only [masterStep] at h
        by_cases h1 : nm ∈ shapes
        · rw [if_pos h1] at h
          by_cases h2 : nm ∈ keysOf inP
          · rw [if_pos h2] at h
            rcases dictInsert_mem e nm master d h with h3 | h3
            · right
              rw [h3]
              exact ⟨rfl, List.mem_cons_self nm rest, h1, h2⟩
            · exact Or.inl h3
          · rw [if_neg h2] at h
            exact Or.inl h
        · rw [if_neg h1] at h
          exact Or.inl h
      · exact Or.inr ⟨h.1, List.mem_cons_of_mem nm h.2.1, h.2.2⟩

theorem mem_masterOuter {β : Type} [DecidableEq β] (shapes : List Str)
    (inP : List (Str × Str)) (ps : β → List Str) :
    ∀ (ms : List β) (d : List (Str × β)) (e : Str × β),
      e ∈ ms.foldl (fun d master => (ps master).foldl
          (masterStep shapes inP master) d) d →
        e ∈ d ∨ (∃ m ∈ ms, e.2 = m ∧ e.1 ∈ ps m ∧ e.1 ∈ shapes ∧
          e.1 ∈ keysOf inP) := by
  intro ms
  induction ms with
  | nil => exact fun d e he => Or.inl he
  | cons m rest ih =>
      intro d e he
      rw [List.foldl_cons] at he
      rcases ih _ e he with h | h
      · rcases mem_masterInner shapes inP m (ps m) d e h with h2 | h2
        · exact Or.inl h2
        · exact Or.inr ⟨m, List.mem_cons_self m rest, h2.1, h2.2⟩
      · obtain ⟨m2, hm2, hrest⟩ := h
        exact Or.inr ⟨m2, List.mem_cons_of_mem m hm2, hrest⟩

theorem mem_sliderMastersOf (smp : Simplex) (inP : List (Str × Str)) :
    ∀ e ∈ sliderMastersOf smp inP,
      e.1 ∈ keysOf inP ∧ e.1 ∈ smp.shapes ∧
        ∃ m ∈ smp.sliders, e.2 = m ∧ e.1 ∈ m.progShapes := by
  intro e he
  rcases mem_masterOuter smp.shapes inP Slider.progShapes smp.sliders [] e he
    with h | h
  · cases h
  · obtain ⟨m, hm, h1, h2, h3, h4⟩ := h
    exact ⟨h4, h3, m, hm, h1, h2⟩

theorem mem_comboMastersOf (smp : Simplex) (inP : List (Str × Str)) :
    ∀ e ∈ comboMastersOf smp inP,
      e.1 ∈ keysOf inP ∧ e.1 ∈ smp.shapes ∧
        ∃ m ∈ smp.combos, e.2 = m ∧ e.1 ∈ m.progShapes := by
  intro e he
  rcases mem_masterOuter smp.shapes inP Combo.progShapes smp.combos [] e he
    with h | h
  · cases h
  · obtain ⟨m, hm, h1, h2, h3, h4⟩ := h
    exact ⟨h4, h3, m, hm, h1, h2⟩

theorem depthInsert_inv (R : Str × Combo → Prop) (depth : Nat) (k : Str)
    (v : Combo) (d : List (Nat × List (Str × Combo)))
    (hInv : ∀ x ∈ d, ∀ e ∈ x.2, R e ∧ e.2.pairsLen = x.1)
    (hkv : R (k, v)) (hdep : v.pairsLen = depth) :
    ∀ x ∈ depthInsert depth k v d, ∀ e ∈ x.2, R e ∧ e.2.pairsLen = x.1 := by
  intro x hx e he
  unfold depthInsert at hx
  by_cases hc : d.any (fun e => e.1 == depth)
  · rw [if_pos hc] at hx
    obtain ⟨y, hy, hfy⟩ := List.mem_map.mp hx
    by_cases hyd : y.1 = depth
    · have hx2 : x = (depth, dictInsert k v y.2) := by
        rw [← hfy]
        simp [hyd]
      rw [hx2] at he
      rcases dictInsert_mem e k v y.2 he with h1 | h1
      · rw [h1, hx2]
        exact ⟨hkv, hdep⟩
      · obtain ⟨hR, hp⟩ := hInv y hy e h1
        refine ⟨hR, ?_⟩
        rw [hx2, hp, hyd]
    · have hx2 : x = y := by
        rw [← hfy]
        simp [hyd]
      rw [hx2] at he ⊢
      exact hInv y hy e he
  · rw [if_neg hc] at hx
    rcases List.mem_append.mp hx with h1 | h1
    · exact hInv x h1 e he
    · have hx2 : x = (depth, dictInsert k v []) := by simpa using h1
      rw [hx2] at he
      rcases dictInsert_mem e k v [] he with h2 | h2
      · rw [h2, hx2]
        exact ⟨hkv, hdep⟩
      · cases h2

theorem comboDepthOf_inv (R : Str × Combo → Prop)
    (cm : List (Str × Combo)) (hcm : ∀ kv ∈ cm, R kv) :
    ∀ x ∈ comboDepthOf cm, ∀ e ∈ x.2, R e ∧ e.2.pairsLen = x.1 := by
  have key : ∀ (l : List (Str × Combo)) (d : List (Nat × List (Str × Combo))),
      (∀ kv ∈ l, R kv) →
      (∀ x ∈ d, ∀ e ∈ x.2, R e ∧ e.2.pairsLen = x.1) →
      ∀ x ∈ l.foldl (fun d kv => depthInsert kv.2.pairsLen kv.1 kv.2 d) d,
        ∀ e ∈ x.2, R e ∧ e.2.pairsLen = x.1 := by
    intro l
    induction l with
    | nil => exact fun d _ hInv => hInv
    | cons kv rest ih =>
        intro d hl hInv
        rw [List.foldl_cons]
        refine ih _ (fun y hy => hl y (List.mem_cons_of_mem kv hy)) ?_
        exact depthInsert_inv R kv.2.pairsLen kv.1 kv.2 d hInv
          (hl kv (List.mem_cons_self kv rest)) rfl
  exact key cm [] hcm (fun x hx => absurd hx (List.not_mem_nil x))

theorem theSortedGroups_keys_pairwise (smp : Simplex) (paths0 : List Str) :
    ((theSortedGroups smp paths0).map Prod.fst).Pairwise (· ≤ ·) := by
  unfold theSortedGroups
  rw [List.map_map]
  have hid : (Prod.fst ∘ fun depth =>
      (depth, dictGet (theComboDepth smp paths0) depth [])) = id := rfl
  rw [hid, List.map_id]
  exact List.sorted_insertionSort _ _

theorem mem_theSortedGroups (smp : Simplex) (paths0 : List Str) :
    ∀ g ∈ theSortedGroups smp paths0,
      ∃ y ∈ theComboDepth smp paths0, y.1 = g.1 ∧ y.2 = g.2 := by
  intro g hg
  unfold theSortedGroups at hg
  obtain ⟨depth, hdep, hgd⟩ := List.mem_map.mp hg
  have hmem : depth ∈ keysOf (theComboDepth smp paths0) :=
    ((List.perm_insertionSort (· ≤ ·) _).mem_iff).mp hdep
  obtain ⟨e, he, hek, hval⟩ :=
    dictGet_of_mem_keysOf depth (theComboDepth smp paths0) [] hmem
  refine ⟨e, he, ?_, ?_⟩
  · rw [hek, ← hgd]
  · rw [← hgd]
    exact hval.symm

/-- The group invariant importObjFolder's combo loops run under: every
entry of a depth group is a comboMasters entry of that depth. -/
theorem theSortedGroups_inv (smp : Simplex) (paths0 : List Str) :
    ∀ g ∈ theSortedGroups smp paths0, ∀ e ∈ g.2,
      e.2.pairsLen = g.1 ∧ e.1 ∈ keysOf (theInPairs smp paths0) := by
  intro g hg e he
  obtain ⟨y, hy, hk, hv⟩ := mem_theSortedGroups smp paths0 g hg
  have hinv := comboDepthOf_inv
    (fun kv => kv.1 ∈ keysOf (theInPairs smp paths0))
    (theComboMasters smp paths0)
    (fun kv hkv => (mem_comboMastersOf smp (theInPairs smp paths0) kv hkv).1)
    y hy e (by rw [hv]; exact he)
  exact ⟨by rw [← hk]; exact hinv.2, hinv.1⟩

/-- The depths of the connectComboShape calls of a trace, in order. -/
def comboDepths (tr : List Action) : List Nat :=
  tr.filterMap (fun a =>
    match a with
    | Action.connectComboShape _ d => some d
    | _ => none)

theorem comboDepths_batch_mem (inP : List (Str × Str)) (cancel : Nat → Bool)
    (grp : Nat × List (Str × Combo)) (n : Nat)
    (hinv : ∀ e ∈ grp.2, e.2.pairsLen = grp.1) :
    ∀ x ∈ comboDepths ((batchLoop cancel (comboBody inP) grp.2 n).1),
      x = grp.1 := by
  intro x hx
  unfold comboDepths at hx
  obtain ⟨a, ha, hfa⟩ := List.mem_filterMap.mp hx
  obtain ⟨item, hit, hb⟩ := mem_batchLoop cancel (comboBody inP) grp.2 n a ha
  unfold comboBody at hb
  rcases List.mem_cons.mp hb with rfl | hb2
  · cases hfa
  · have ha2 : a = Action.connectComboShape item.1 item.2.pairsLen := by
      simpa using hb2
    rw [ha2] at hfa
    have hx2 : x = item.2.pairsLen := by
      simpa using hfa.symm
    rw [hx2]
    exact hinv item hit

theorem pairwise_const_le (d : Nat) :
    ∀ (l : List Nat), (∀ x ∈ l, x = d) → l.Pairwise (· ≤ ·) := by
  intro l
  induction l with
  | nil => intro _; exact List.Pairwise.nil
  | cons x rest ih =>
      intro h
      refine List.Pairwise.cons ?_ (ih fun y hy => h y (List.mem_cons_of_mem x hy))
      intro y hy
      rw [h x (List.mem_cons_self x rest), h y (List.mem_cons_of_mem x hy)]

theorem comboDepths_runDepths_mem (inP : List (Str × Str))
    (cancel : Nat → Bool) (groups : List (Nat × List (Str × Combo)))
    (hinv : ∀ g ∈ groups, ∀ e ∈ g.2, e.2.pairsLen = g.1) (n : Nat) :
    ∀ x ∈ comboDepths (runDepths inP cancel groups n),
      ∃ g ∈ groups, x = g.1 := by
  intro x hx
  unfold comboDepths at hx
  obtain ⟨a, ha, hfa⟩ := List.mem_filterMap.mp hx
  obtain ⟨g, hg, item, hit, hb⟩ := mem_runDepths inP cancel groups n a ha
  unfold comboBody at hb
  rcases List.mem_cons.mp hb with rfl | hb2
  · cases hfa
  · have ha2 : a = Action.connectComboShape item.1 item.2.pairsLen := by
      simpa using hb2
    rw [ha2] at hfa
    have hx2 : x = item.2.pairsLen := by
      simpa using hfa.symm
    rw [hx2]
    exact ⟨g, hg, hinv g hg item hit⟩

theorem comboDepths_runDepths_pairwise (inP : List (Str × Str))
    (cancel : Nat → Bool) :
    ∀ (groups : List (Nat × List (Str × Combo))),
      ((groups.map Prod.fst).Pairwise (· ≤ ·)) →
      (∀ g ∈ groups, ∀ e ∈ g.2, e.2.pairsLen = g.1) →
      ∀ n, (comboDepths (runDepths inP cancel groups n)).Pairwise (· ≤ ·) := by
  intro groups
  induction groups with
  | nil =>
      intro _ _ n
      simp [runDepths, comboDepths]
  | cons grp rest ih =>
      intro hkeys hinv n
      rw [List.map_cons] at hkeys
      obtain ⟨hhead, htail⟩ := List.pairwise_cons.mp hkeys
      have hinvg : ∀ e ∈ grp.2, e.2.pairsLen = grp.1 :=
        hinv grp (List.mem_cons_self grp rest)
      have hinvr : ∀ g ∈ rest, ∀ e ∈ g.2, e.2.pairsLen = g.1 :=
        fun g hg => hinv g (List.mem_cons_of_mem grp hg)
      simp only [runDepths]
      by_cases hflag : (batchLoop cancel (comboBody inP) grp.2 n).2.2
      · rw [if_pos hflag]
        exact pairwise_const_le grp.1 _
          (comboDepths_batch_mem inP cancel grp n hinvg)
      · rw [if_neg hflag]
        have hsplit : comboDepths
            ((batchLoop cancel (comboBody inP) grp.2 n).1
              ++ runDepths inP cancel rest
                  (batchLoop cancel (comboBody inP) grp.2 n).2.1)
            = comboDepths ((batchLoop cancel (comboBody inP) grp.2 n).1)
              ++ comboDepths (runDepths inP cancel rest
                  (batchLoop cancel (comboBody inP) grp.2 n).2.1) := by
          unfold comboDepths
          rw [List.filterMap_append]
        rw [hsplit, List.pairwise_append]
        refine ⟨pairwise_const_le grp.1 _
          (comboDepths_batch_mem inP cancel grp n hinvg),
          ih htail hinvr _, ?_⟩
        intro x hx y hy
        obtain ⟨g, hg, hyg⟩ := comboDepths_runDepths_mem inP cancel rest
          hinvr _ y hy
        rw [comboDepths_batch_mem inP cancel grp n hinvg x hx, hyg]
        exact hhead g.1 (List.mem_map.mpr ⟨g, hg, rfl⟩)

def isConnectShape : Action → Bool
  | Action.connectShape _ => true
  | _ => false

def isConnectComboShape : Action → Bool
  | Action.connectComboShape _ _ => true
  | _ => false

theorem importPath_ok (smp : Simplex) (paths0 : List Str) (nm : Str)
    (h : nm ∈ keysOf (theInPairs smp paths0)) :
    objSfx.isSuffixOf (dictGet (theInPairs smp paths0) nm []) = true ∧
    (splitextStem (dictGet (theInPairs smp paths0) nm []) ∈ smp.shapes ∨
      ∃ nm2 ∈ smp.shapes,
        splitextStem (dictGet (theInPairs smp paths0) nm []) =
          nm2 ++ extractSfx) := by
  obtain ⟨e, he, hek, hval⟩ :=
    dictGet_of_mem_keysOf nm (theInPairs smp paths0) [] h
  obtain ⟨hpath, hshape, hstem⟩ :=
    mem_inPairsOf smp.shapes (objPaths paths0) e he
  have hobj : objSfx.isSuffixOf e.2 = true := by
    unfold objPaths at hpath
    have := List.mem_filter.mp hpath
    exact this.2
  rw [hval]
  refine ⟨hobj, ?_⟩
  rcases hstem with hstem | hstem
  · left
    rw [hstem]
    exact hshape
  · right
    exact ⟨e.1, hshape, hstem⟩

/-- The full (uncanceled) run: all slider-driven connections, then the
depth-sorted combo groups. -/
theorem importObjFolder_noCancel (smp : Simplex) (paths0 : List Str) :
    importObjFolder smp paths0 (fun _ => false)
      = ((theSliderMasters smp paths0).map
          (sliderBody (theInPairs smp paths0))).flatten
        ++ runDepths (theInPairs smp paths0) (fun _ => false)
            (theSortedGroups smp paths0)
            (theSliderMasters smp paths0).length := by
  simp only [importObjFolder]
  rw [batchLoop_noCancel]
  simp

/-- C10: importObjFolder performs all slider-driven connections before any
combo-driven connection; the combo connections appear in non-decreasing
depth order; every imported file is a .obj whose stem is a known shape
name, exactly or with an "_Extract" suffix appended to one; and when the
progress dialog is first canceled at step k, exactly the first k
iterations (two actions each) of the full run are performed. -/
theorem import_obj_folder_spec (smp : Simplex) (paths0 : List Str)
    (cancel : Nat → Bool) :
    (∃ s c, importObjFolder smp paths0 cancel = s ++ c ∧
      (∀ a ∈ s, isConnectComboShape a = false) ∧
      (∀ a ∈ c, isConnectShape a = false)) ∧
    (comboDepths (importObjFolder smp paths0 cancel)).Pairwise (· ≤ ·) ∧
    (∀ p, Action.importObj p ∈ importObjFolder smp paths0 cancel →
      objSfx.isSuffixOf p = true ∧
      (splitextStem p ∈ smp.shapes ∨
        ∃ nm ∈ smp.shapes, splitextStem p = nm ++ extractSfx)) ∧
    (∀ k, cancel k = true → (∀ j, j < k → cancel j = false) →
      importObjFolder smp paths0 cancel
        = (importObjFolder smp paths0 (fun _ => false)).take (2 * k)) := by
  have hsliderElems : ∀ a ∈ (batchLoop cancel
      (sliderBody (theInPairs smp paths0)) (theSliderMasters smp paths0) 0).1,
      ∃ item ∈ theSliderMasters smp paths0,
        (a = Action.importObj
            (dictGet (theInPairs smp paths0) item.1 []) ∨
          a = Action.connectShape item.1) := by
    intro a ha
    obtain ⟨item, hit, hb⟩ := mem_batchLoop cancel _ _ 0 a ha
    refine ⟨item, hit, ?_⟩
    simpa [sliderBody] using hb
  have hcomboElems : ∀ n, ∀ a ∈ runDepths (theInPairs smp paths0) cancel
      (theSortedGroups smp paths0) n,
      ∃ g ∈ theSortedGroups smp paths0, ∃ item ∈ g.2,
        (a = Action.importObj
            (dictGet (theInPairs smp paths0) item.1 []) ∨
          a = Action.connectComboShape item.1 item.2.pairsLen) := by
    intro n a ha
    obtain ⟨g, hg, item, hit, hb⟩ := mem_runDepths _ cancel _ n a ha
    refine ⟨g, hg, item, hit, ?_⟩
    simpa [comboBody] using hb
  have hinvGroups : ∀ g ∈ theSortedGroups smp paths0, ∀ e ∈ g.2,
      e.2.pairsLen = g.1 :=
    fun g hg e he => (theSortedGroups_inv smp paths0 g hg e he).1
  have hsliderDepths : comboDepths ((batchLoop cancel
      (sliderBody (theInPairs smp paths0))
      (theSliderMasters smp paths0) 0).1) = [] := by
    unfold comboDepths
    rw [List.filterMap_eq_nil_iff]
    intro a ha
    obtain ⟨item, _, hb | hb⟩ := hsliderElems a ha <;> rw [hb]
  have himportKey : ∀ (item1 : Str) (p : Str),
      item1 ∈ keysOf (theInPairs smp paths0) →
      p = dictGet (theInPairs smp paths0) item1 [] →
      objSfx.isSuffixOf p = true ∧
        (splitextStem p ∈ smp.shapes ∨
          ∃ nm ∈ smp.shapes, splitextStem p = nm ++ extractSfx) := by
    intro item1 p hkey hp
    rw [hp]
    exact importPath_ok smp paths0 item1 hkey
  refine ⟨?_, ?_, ?_, ?_⟩
  · simp only [importObjFolder]
    by_cases hflag : (batchLoop cancel (sliderBody (theInPairs smp paths0))
        (theSliderMasters smp paths0) 0).2.2
    · rw [if_pos hflag]
      refine ⟨_, [], (List.append_nil _).symm, ?_, ?_⟩
      · intro a ha
        obtain ⟨item, _, hb | hb⟩ := hsliderElems a ha <;>
          rw [hb] <;> rfl
      · intro a ha
        cases ha
    · rw [if_neg hflag]
      refine ⟨_, _, rfl, ?_, ?_⟩
      · intro a ha
        obtain ⟨item, _, hb | hb⟩ := hsliderElems a ha <;>
          rw [hb] <;> rfl
      · intro a ha
        obtain ⟨g, _, item, _, hb | hb⟩ := hcomboElems _ a ha <;>
          rw [hb] <;> rfl
  · simp only [importObjFolder]
    by_cases hflag : (batchLoop cancel (sliderBody (theInPairs smp paths0))
        (theSliderMasters smp paths0) 0).2.2
    · rw [if_pos hflag, hsliderDepths]
      exact List.Pairwise.nil
    · rw [if_neg hflag]
      have hsplit : comboDepths ((batchLoop cancel
            (sliderBody (theInPairs smp paths0))
            (theSliderMasters smp paths0) 0).1
          ++ runDepths (theInPairs smp paths0) cancel
              (theSortedGroups smp paths0)
              (batchLoop cancel (sliderBody (theInPairs smp paths0))
                (theSliderMasters smp paths0) 0).2.1)
          = comboDepths (runDepths (theInPairs smp paths0) cancel
              (theSortedGroups smp paths0)
              (batchLoop cancel (sliderBody (theInPairs smp paths0))
                (theSliderMasters smp paths0) 0).2.1) := by
        unfold comboDepths at hsliderDepths ⊢
        rw [List.filterMap_append, hsliderDepths, List.nil_append]
      rw [hsplit]
      exact comboDepths_runDepths_pairwise (theInPairs smp paths0) cancel
        (theSortedGroups smp paths0)
        (theSortedGroups_keys_pairwise smp paths0) hinvGroups _
  · intro p hp
    simp only [importObjFolder] at hp
    by_cases hflag : (batchLoop cancel (sliderBody (theInPairs smp paths0))
        (theSliderMasters smp paths0) 0).2.2
    · rw [if_pos hflag] at hp
      obtain ⟨item, hit, hb | hb⟩ := hsliderElems _ hp
      · exact himportKey item.1 p
          (mem_sliderMastersOf smp (theInPairs smp paths0) item hit).1
          (by injection hb)
      · cases hb
    · rw [if_neg hflag] at hp
      rcases List.mem_append.mp hp with hp2 | hp2
      · obtain ⟨item, hit, hb | hb⟩ := hsliderElems _ hp2
        · exact himportKey item.1 p
            (mem_sliderMastersOf smp (theInPairs smp paths0) item hit).1
            (by injection hb)
        · cases hb
      · obtain ⟨g, hg, item, hit, hb | hb⟩ := hcomboElems _ _ hp2
        · exact himportKey item.1 p
            (theSortedGroups_inv smp paths0 g hg item hit).2
            (by injection hb)
        · cases hb
  · intro k hk hlt
    obtain ⟨hT, hF, hK⟩ := batchLoop_cancel cancel
      (sliderBody (theInPairs smp paths0))
      (fun item => by simp [sliderBody])
      (theSliderMasters smp paths0) k hk 0 (fun j _ hj => hlt j hj)
      (Nat.zero_le k)
    have hfull1 : (batchLoop (fun _ => false)
        (sliderBody (theInPairs smp paths0))
        (theSliderMasters smp paths0) 0).1
        = ((theSliderMasters smp paths0).map
            (sliderBody (theInPairs smp paths0))).flatten := by
      rw [batchLoop_noCancel]
    have hflatlen : (((theSliderMasters smp paths0).map
        (sliderBody (theInPairs smp paths0))).flatten).length
        = 2 * (theSliderMasters smp paths0).length :=
      flatten_map_length (sliderBody (theInPairs smp paths0))
        (fun item => rfl) (theSliderMasters smp paths0)
    rw [importObjFolder_noCancel]
    simp only [importObjFolder]
    by_cases hflag : (batchLoop cancel (sliderBody (theInPairs smp paths0))
        (theSliderMasters smp paths0) 0).2.2
    · rw [if_pos hflag, hT, hfull1, List.take_append_eq_append_take]
      have hlen : k < (theSliderMasters smp paths0).length := by
        have := hF.mp hflag
        omega
      have h0 : 2 * k - (((theSliderMasters smp paths0).map
          (sliderBody (theInPairs smp paths0))).flatten).length = 0 := by
        rw [hflatlen]
        omega
      rw [h0]
      simp
    · rw [if_neg hflag]
      have hflag2 : (batchLoop cancel (sliderBody (theInPairs smp paths0))
          (theSliderMasters smp paths0) 0).2.2 = false := by
        revert hflag
        cases (batchLoop cancel (sliderBody (theInPairs smp paths0))
          (theSliderMasters smp paths0) 0).2.2 <;> simp
      have hlen : (theSliderMasters smp paths0).length ≤ k := by
        by_contra hcon
        exact hflag (hF.mpr (by omega))
      have hnext := hK hflag2
      rw [Nat.zero_add] at hnext
      rw [hT, hnext, hfull1]
      have htake : (((theSliderMasters smp paths0).map
          (sliderBody (theInPairs smp paths0))).flatten).take (2 * (k - 0))
          = ((theSliderMasters smp paths0).map
              (sliderBody (theInPairs smp paths0))).flatten :=
        List.take_of_length_le (by rw [hflatlen]; omega)
      rw [htake]
      rw [runDepths_cancel (theInPairs smp paths0) cancel
        (theSortedGroups smp paths0) k hk
        (theSliderMasters smp paths0).length
        (fun j hj1 hj2 => hlt j hj2) hlen]
      rw [List.take_append_eq_append_take]
      have h1 : (((theSliderMasters smp paths0).map
          (sliderBody (theInPairs smp paths0))).flatten).take (2 * k)
          = ((theSliderMasters smp paths0).map
              (sliderBody (theInPairs smp paths0))).flatten :=
        List.take_of_length_le (by rw [hflatlen]; omega)
      have h2 : 2 * k - (((theSliderMasters smp paths0).map
          (sliderBody (theInPairs smp paths0))).flatten).length
          = 2 * (k - (theSliderMasters smp paths0).length) := by
        rw [hflatlen]
        omega
      rw [h1, h2]

/-- Witness for C10 on a small folder: C.obj is imported and its stem is a
known shape, and a run canceled at step 0 performs none of the full run's
actions. -/
theorem import_obj_folder_witness :
    (objSfx.isSuffixOf ([ 'C', '.', 'o', 'b', 'j' ] : Str) = true ∧
      (splitextStem [ 'C', '.', 'o', 'b', 'j' ] ∈
          ([[ 'A' ], [ 'B' ], [ 'C' ]] : List Str) ∨
        ∃ nm ∈ ([[ 'A' ], [ 'B' ], [ 'C' ]] : List Str),
          splitextStem [ 'C', '.', 'o', 'b', 'j' ] = nm ++ extractSfx)) ∧
    importObjFolder
        ⟨[[ 'A' ], [ 'B' ], [ 'C' ]], [⟨[[ 'A' ]]⟩],
          [⟨[[ 'B' ]], 2⟩, ⟨[[ 'C' ]], 1⟩]⟩
        [[ 'A', '.', 'o', 'b', 'j' ],
          [ 'B', '_', 'E', 'x', 't', 'r', 'a', 'c', 't', '.', 'o', 'b', 'j' ],
          [ 'C', '.', 'o', 'b', 'j' ], [ 'D', '.', 'o', 'b', 'j' ],
          [ 'R', '.', 't', 'x', 't' ]] (fun _ => true)
      = (importObjFolder
          ⟨[[ 'A' ], [ 'B' ], [ 'C' ]], [⟨[[ 'A' ]]⟩],
            [⟨[[ 'B' ]], 2⟩, ⟨[[ 'C' ]], 1⟩]⟩
          [[ 'A', '.', 'o', 'b', 'j' ],
            [ 'B', '_', 'E', 'x', 't', 'r', 'a', 'c', 't', '.', 'o', 'b', 'j' ],
            [ 'C', '.', 'o', 'b', 'j' ], [ 'D', '.', 'o', 'b', 'j' ],
            [ 'R', '.', 't', 'x', 't' ]] (fun _ => false)).take 0 := by
  constructor
  · exact (import_obj_folder_spec
      ⟨[[ 'A' ], [ 'B' ], [ 'C' ]], [⟨[[ 'A' ]]⟩],
        [⟨[[ 'B' ]], 2⟩, ⟨[[ 'C' ]], 1⟩]⟩
      [[ 'A', '.', 'o', 'b', 'j' ],
        [ 'B', '_', 'E', 'x', 't', 'r', 'a', 'c', 't', '.', 'o', 'b', 'j' ],
        [ 'C', '.', 'o', 'b', 'j' ], [ 'D', '.', 'o', 'b', 'j' ],
        [ 'R', '.', 't', 'x', 't' ]] (fun _ => false)).2.2.1
      [ 'C', '.', 'o', 'b', 'j' ] (by decide)
  · have h := (import_obj_folder_spec
      ⟨[[ 'A' ], [ 'B' ], [ 'C' ]], [⟨[[ 'A' ]]⟩],
        [⟨[[ 'B' ]], 2⟩, ⟨[[ 'C' ]], 1⟩]⟩
      [[ 'A', '.', 'o', 'b', 'j' ],
        [ 'B', '_', 'E', 'x', 't', 'r', 'a', 'c', 't', '.', 'o', 'b', 'j' ],
        [ 'C', '.', 'o', 'b', 'j' ], [ 'D', '.', 'o', 'b', 'j' ],
        [ 'R', '.', 't', 'x', 't' ]] (fun _ => true)).2.2.2 0 rfl
      (fun j hj => absurd hj (Nat.not_lt_zero j))
    simpa using h

end C10
